import Mathlib

/-!
Verification of the echttp embedded HTTP server/client library core.

Strings of the C sources are modelled as `List Char` (one `Char` per byte;
the terminating NUL of a C string is implicit: a list element is never the
NUL byte unless stated otherwise).  Machine integers are modelled as `Int`
or `Nat` with explicit wrap-around (`% 2 ^ 32`) where the C code relies on
unsigned overflow (the djb2 hash).  Fallible C functions that return a null
pointer are modelled with `Option`.  Paths on which the C code has undefined
behaviour (null-pointer dereference, reads past the buffer) are modelled by
a dedicated outcome constructor.
-/

set_option autoImplicit false

namespace Echttp

/-! ### C library character helpers (ctype.h, ASCII/C locale) -/

/-- C `tolower` restricted to single bytes. -/
def ctolower (c : Char) : Char :=
  if 'A' ≤ c && c ≤ 'Z' then Char.ofNat (c.toNat + 32) else c

/-- C `isdigit`. -/
def c_isdigit (c : Char) : Bool := '0' ≤ c && c ≤ '9'

/-- C `isxdigit`. -/
def c_isxdigit (c : Char) : Bool :=
  c_isdigit c || ('a' ≤ c && c ≤ 'f') || ('A' ≤ c && c ≤ 'F')

/-- C `isspace` (C locale). -/
def c_isspace (c : Char) : Bool :=
  c = ' ' || c = '\t' || c = '\n' || c.toNat = 11 || c.toNat = 12 || c = '\r'

/-- Digit accumulation part of C `atoi`/`strtol` base 10. -/
def atoiDigits : List Char → Int → Int
  | [], acc => acc
  | c :: rest, acc =>
      if c_isdigit c then atoiDigits rest (acc * 10 + (c.toNat - '0'.toNat : Int))
      else acc

/-- C `atoi`: skip whitespace, optional sign, then decimal digits. -/
def c_atoi (s : List Char) : Int :=
  let s1 := s.dropWhile c_isspace
  match s1 with
  | '-' :: rest => - atoiDigits rest 0
  | '+' :: rest => atoiDigits rest 0
  | _ => atoiDigits s1 0

/-- C `strchr`: the suffix of the string starting at the first occurrence of
the character, or `none` (null pointer) if absent. -/
def c_strchr (s : List Char) (c : Char) : Option (List Char) :=
  match s with
  | [] => none
  | x :: rest => if x = c then some (x :: rest) else c_strchr rest c

/-! ### echttp_encoding.c -/

/-- `echttp_encoding_hextoi` from src/echttp_encoding.c. -/
def echttp_encoding_hextoi (a : Char) : Nat :=
  if c_isdigit a then a.toNat - '0'.toNat
  else (ctolower a).toNat - 'a'.toNat + 10

/-- `echttp_encoding_itohex` from src/echttp_encoding.c. -/
def echttp_encoding_itohex (a : Nat) : Char :=
  if a > 15 then 'F'
  else if a < 10 then Char.ofNat ('0'.toNat + a)
  else Char.ofNat ('A'.toNat + a - 10)

/-- The punctuation set marked in `echttp_encoding_table` by
`echttp_encoding_init` (bytes `% , / : ; < = > ? @ [ \ ] ^ BACKQUOTE`). -/
def echttp_encoding_table (c : Nat) : Bool :=
  c = 37 || c = 44 || c = 47 || c = 58 || c = 59 || c = 60 || c = 61 ||
  c = 62 || c = 63 || c = 64 || c = 91 || c = 92 || c = 93 || c = 94 || c = 96

/-- `echttp_encoding_unescape` from src/echttp_encoding.c: rewrite `%HH`
escapes in place; returns `none` (the C null pointer) on an incomplete or
non-hex escape sequence. -/
def echttp_encoding_unescape : List Char → Option (List Char)
  | [] => some []
  | c :: rest =>
      if c = '%' then
        match rest with
        | a :: b :: rest2 =>
            if c_isxdigit a && c_isxdigit b then
              (echttp_encoding_unescape rest2).map
                (fun t => Char.ofNat (16 * echttp_encoding_hextoi a
                                      + echttp_encoding_hextoi b) :: t)
            else none
        | _ => none
      else
        (echttp_encoding_unescape rest).map (fun t => c :: t)

/-- The escape condition `c <= 41 || c >= 123 || echttp_encoding_table[c]`
of `echttp_encoding_escape`. -/
def echttp_escape_class (cv : Nat) : Bool :=
  cv ≤ 41 || cv ≥ 123 || echttp_encoding_table cv

/-- Loop body of `echttp_encoding_escape`: `i` is the output write index and
`size` the already-decremented capacity (`size - 1` in the C code, an `int`,
so possibly negative).  A byte is copied verbatim when it is in `[42, 122]`
and not in the punctuation table, otherwise expanded to `%HH`; the loop
breaks on the NUL terminator (end of list, the `c <= 0` break) or when
running out of room. -/
def echttp_encoding_escape_loop (s : List Char) (i : Nat) (size : Int) :
    List Char :=
  if (i : Int) < size then
    match s with
    | [] => []
    | c :: rest =>
        let cv : Nat := c.toNat % 256
        if echttp_escape_class cv then
          if cv = 0 then []
          else if (i : Int) ≥ size - 3 then []
          else '%' :: echttp_encoding_itohex (cv / 16)
                   :: echttp_encoding_itohex (cv % 16)
                   :: echttp_encoding_escape_loop rest (i + 3) size
        else c :: echttp_encoding_escape_loop rest (i + 1) size
  else []
termination_by s.length

/-- `echttp_encoding_escape` from src/echttp_encoding.c (the output buffer
content up to the terminating NUL; `size` is the buffer capacity). -/
def echttp_encoding_escape (s : List Char) (size : Int) : List Char :=
  echttp_encoding_escape_loop s 0 (size - 1)

/-- The escape transformation without any capacity limit; used to factor the
round-trip proof. -/
def echttp_escape_all : List Char → List Char
  | [] => []
  | c :: rest =>
      let cv : Nat := c.toNat % 256
      if echttp_escape_class cv then
        '%' :: echttp_encoding_itohex (cv / 16)
             :: echttp_encoding_itohex (cv % 16)
             :: echttp_escape_all rest
      else c :: echttp_escape_all rest

theorem unescape_pct (a b : Char) (l : List Char) :
    echttp_encoding_unescape ('%' :: a :: b :: l)
      = if c_isxdigit a && c_isxdigit b then
          (echttp_encoding_unescape l).map
            (fun t => Char.ofNat (16 * echttp_encoding_hextoi a
                                  + echttp_encoding_hextoi b) :: t)
        else none := by
  rfl

theorem unescape_cons_ne (c : Char) (hne : ¬ (c = '%')) (l : List Char) :
    echttp_encoding_unescape (c :: l)
      = (echttp_encoding_unescape l).map (fun t => c :: t) := by
  cases l with
  | nil => simp [echttp_encoding_unescape, hne]
  | cons a rest => cases rest <;> simp [echttp_encoding_unescape, hne]

theorem hextoi_itohex : ∀ x : Nat, x < 16 →
    echttp_encoding_hextoi (echttp_encoding_itohex x) = x := by decide

theorem isxdigit_itohex : ∀ x : Nat, x < 16 →
    c_isxdigit (echttp_encoding_itohex x) = true := by decide

/-- With enough room (`i + 3 * |s| < size`) the bounded escape loop never
breaks early, so it agrees with the unbounded transformation. -/
theorem escape_loop_eq_all (s : List Char)
    (hb : ∀ c ∈ s, 0 < c.toNat ∧ c.toNat < 256) :
    ∀ (i : Nat) (size : Int), (i : Int) + 3 * s.length < size →
    echttp_encoding_escape_loop s i size = echttp_escape_all s := by
  induction s with
  | nil =>
      intro i size _
      rw [echttp_encoding_escape_loop, echttp_escape_all]
      split <;> rfl
  | cons c rest ih =>
      intro i size hroom
      have hc := hb c (by simp)
      have hrest : ∀ x ∈ rest, 0 < x.toNat ∧ x.toNat < 256 := by
        intro x hx; exact hb x (by simp [hx])
      rw [List.length_cons] at hroom
      push_cast at hroom
      have hi : (i : Int) < size := by omega
      rw [echttp_encoding_escape_loop, if_pos hi, echttp_escape_all]
      by_cases hclass : echttp_escape_class (c.toNat % 256) = true
      · rw [if_pos hclass, if_pos hclass]
        have hcv0 : ¬ (c.toNat % 256 = 0) := by
          have := Nat.mod_eq_of_lt hc.2; omega
        rw [if_neg hcv0]
        have hfit : ¬ ((i : Int) ≥ size - 3) := by omega
        rw [if_neg hfit]
        have hrec : ((i + 3 : Nat) : Int) + 3 * rest.length < size := by
          push_cast; omega
        rw [ih hrest (i + 3) size hrec]
      · rw [if_neg hclass, if_neg hclass]
        have hrec : ((i + 1 : Nat) : Int) + 3 * rest.length < size := by
          push_cast; omega
        rw [ih hrest (i + 1) size hrec]

theorem unescape_escape_all (s : List Char)
    (hb : ∀ c ∈ s, 0 < c.toNat ∧ c.toNat < 256) :
    echttp_encoding_unescape (echttp_escape_all s) = some s := by
  induction s with
  | nil => rfl
  | cons c rest ih =>
      have hc := hb c (by simp)
      have hrest : ∀ x ∈ rest, 0 < x.toNat ∧ x.toNat < 256 := by
        intro x hx; exact hb x (by simp [hx])
      have hcv : c.toNat % 256 = c.toNat := Nat.mod_eq_of_lt hc.2
      rw [echttp_escape_all]
      by_cases hclass : echttp_escape_class (c.toNat % 256) = true
      · rw [if_pos hclass, unescape_pct]
        have h1 : c_isxdigit (echttp_encoding_itohex (c.toNat % 256 / 16)) = true :=
          isxdigit_itohex _ (by omega)
        have h2 : c_isxdigit (echttp_encoding_itohex (c.toNat % 256 % 16)) = true :=
          isxdigit_itohex _ (by omega)
        rw [if_pos (by rw [h1, h2]; rfl)]
        rw [ih hrest, Option.map_some']
        have e1 : echttp_encoding_hextoi (echttp_encoding_itohex (c.toNat % 256 / 16))
            = c.toNat % 256 / 16 := hextoi_itohex _ (by omega)
        have e2 : echttp_encoding_hextoi (echttp_encoding_itohex (c.toNat % 256 % 16))
            = c.toNat % 256 % 16 := hextoi_itohex _ (by omega)
        rw [e1, e2]
        have hval : 16 * (c.toNat % 256 / 16) + c.toNat % 256 % 16 = c.toNat := by
          omega
        rw [hval, Char.ofNat_toNat]
      · have hne : ¬ (c = '%') := by
          intro h
          subst h
          simp [echttp_escape_class] at hclass
        rw [if_neg hclass, unescape_cons_ne c hne, ih hrest, Option.map_some']

/-! ### echttp_catalog.c -/

/-- One catalog entry (`echttp_symbol`): a name/value pair.  The catalog
itself is modelled as the `List` of its entries `item[1..count]` in
insertion order; the 127-bucket hash index is recovered from the entries
(see `echttp_catalog_search`). -/
structure CatEntry where
  name : List Char
  value : List Char
deriving DecidableEq, Repr

/-- `echttp_catalog_signature`: case-independent djb2, 32-bit unsigned
arithmetic (explicit wrap-around). -/
def echttp_catalog_signature (name : List Char) : Nat :=
  name.foldl (fun h c => (h * 33 + (ctolower c).toNat) % 4294967296) 5381

/-- C `strcasecmp` equality: byte-wise `tolower` comparison. -/
def strcaseeq (a b : List Char) : Bool :=
  a.map ctolower == b.map ctolower

/-- `echttp_catalog_search`: walk the hash chain of bucket
`signature % 127`.  Chains are built by prepending
(`item[i].next = index[h]; index[h] = i`), so a chain holds the entries of
its bucket in reverse insertion order; the walk compares the full signature
first and then `strcasecmp`.  Returns the 1-based index (`0`, modelled as
`none`, means not found). -/
def echttp_catalog_search (d : List CatEntry) (name : List Char) : Option Nat :=
  let sig := echttp_catalog_signature name
  (((d.enum.filter
      (fun p => echttp_catalog_signature p.2.name % 127 = sig % 127)).reverse).find?
      (fun p => echttp_catalog_signature p.2.name = sig && strcaseeq name p.2.name)).map
    (fun p => p.1 + 1)

/-- `echttp_catalog_find`. -/
def echttp_catalog_find (d : List CatEntry) (name : List Char) : Option Nat :=
  echttp_catalog_search d name

/-- `echttp_catalog_refresh` (ignoring the timestamp, which the catalog
claims do not involve): replace the value in place on a case-insensitive
match, else append — unless the soft cap `ECHTTP_MAX_SYMBOL = 256` is hit,
in which case the catalog is unchanged. -/
def echttp_catalog_refresh (d : List CatEntry) (name value : List Char) :
    List CatEntry :=
  match echttp_catalog_search d name with
  | some i => d.set (i - 1) { name := ((d.get? (i - 1)).map CatEntry.name).getD name,
                              value := value }
  | none => if d.length + 1 ≥ 256 then d else d ++ [⟨name, value⟩]

/-- `echttp_catalog_set`. -/
def echttp_catalog_set (d : List CatEntry) (name value : List Char) :
    List CatEntry :=
  echttp_catalog_refresh d name value

/-- `echttp_catalog_get`. -/
def echttp_catalog_get (d : List CatEntry) (name : List Char) :
    Option (List Char) :=
  (echttp_catalog_search d name).bind (fun i => (d.get? (i - 1)).map CatEntry.value)

/-- C `snprintf` output truncation: with capacity `cap` the written string
holds at most `cap - 1` characters (plus the NUL terminator); capacity 0
writes nothing. -/
def snprintf_trunc (cap : Nat) (s : List Char) : List Char :=
  if cap = 0 then [] else s.take (cap - 1)

/-- Loop of `echttp_catalog_join`: for each entry, append
`snprintf(text+length, size-length, "%s%s=%s", length?sep:"", name, value)`
and advance `length` by the number of characters actually written. -/
def echttp_catalog_join_loop (sep : List Char) (size : Nat) :
    List CatEntry → List Char → List Char
  | [], text => text
  | e :: rest, text =>
      let piece := (if text.length > 0 then sep else [])
                    ++ e.name ++ ['='] ++ e.value
      echttp_catalog_join_loop sep size rest
        (text ++ snprintf_trunc (size - text.length) piece)

/-- `echttp_catalog_join` from src/echttp_catalog.c.  `size` is the output
buffer capacity. -/
def echttp_catalog_join (d : List CatEntry) (sep : List Char) (size : Nat) :
    List Char :=
  echttp_catalog_join_loop sep size d []

/-- The junction of the tail entries, every one preceded by the separator,
with no truncation (used to state what `join` truncates). -/
def catalog_join_tailflat (sep : List Char) : List CatEntry → List Char
  | [] => []
  | e :: rest => (sep ++ e.name ++ ['='] ++ e.value)
                   ++ catalog_join_tailflat sep rest

/-- The untruncated `k1=v1 sep k2=v2 …` string over the entries in
insertion order, exactly as `echttp_catalog_join` would write it into an
unbounded buffer. -/
def catalog_join_full (sep : List Char) : List CatEntry → List Char
  | [] => []
  | e :: rest => (e.name ++ ['='] ++ e.value) ++ catalog_join_tailflat sep rest

/-- Modelled from the spec sentence "percent-encoding each side": the join
the specification describes, with every name and value percent-encoded.
`echttp_catalog_join` is compared against this. -/
def catalog_join_spec_encoded (sep : List Char) (d : List CatEntry)
    (size : Nat) : List Char :=
  (match d with
   | [] => ([] : List Char)
   | e :: rest =>
       echttp_escape_all e.name ++ ['='] ++ echttp_escape_all e.value ++
         (rest.map (fun (x : CatEntry) => sep ++ echttp_escape_all x.name ++ ['='] ++
                             echttp_escape_all x.value)).foldr (· ++ ·) []).take
    (size - 1)

/-! ### Claim C8 -/

/-- C8: Percent-codec round-trip.  For every C byte string `s` (bytes in
`[1, 255]`, no interior NUL) of length at most `cap / 3 - 1`, unescaping
the result of escaping `s` into a buffer of capacity `cap` yields `s`
again: `echttp_encoding_unescape (echttp_encoding_escape s cap) = some s`. -/
theorem C8_percent_roundtrip (s : List Char) (cap : Nat)
    (hb : ∀ c ∈ s, 0 < c.toNat ∧ c.toNat < 256)
    (hlen : s.length ≤ cap / 3 - 1) :
    echttp_encoding_unescape (echttp_encoding_escape s (cap : Int)) = some s := by
  rcases s with _ | ⟨c, rest⟩
  · rw [echttp_encoding_escape, echttp_encoding_escape_loop]
    split <;> rfl
  · have hroom : ((0 : Nat) : Int) + 3 * ((c :: rest).length : Int)
        < (cap : Int) - 1 := by
      rw [List.length_cons] at hlen ⊢
      push_cast
      omega
    rw [echttp_encoding_escape, escape_loop_eq_all _ hb 0 _ hroom]
    exact unescape_escape_all _ hb

theorem C8_percent_roundtrip_witness :
    (∀ c ∈ ['%', 'A', '/'], 0 < c.toNat ∧ c.toNat < 256) ∧
    (['%', 'A', '/'] : List Char).length ≤ 15 / 3 - 1 ∧
    echttp_encoding_unescape (echttp_encoding_escape ['%', 'A', '/'] (15 : Nat))
      = some ['%', 'A', '/'] :=
  ⟨by decide, by decide, C8_percent_roundtrip ['%', 'A', '/'] 15 (by decide) (by decide)⟩

/-! ### Claim C6 -/

/-- Once the output is saturated (`length = size - 1`), every further
`snprintf` has capacity 1 and writes nothing. -/
theorem join_loop_saturated (sep : List Char) (size : Nat)
    (h1 : 1 ≤ size) (d : List CatEntry) (text : List Char)
    (h : text.length = size - 1) :
    echttp_catalog_join_loop sep size d text = text := by
  induction d with
  | nil => rfl
  | cons e rest ih =>
      have hcap : size - text.length = 1 := by omega
      simp only [echttp_catalog_join_loop, hcap, snprintf_trunc, if_neg,
        one_ne_zero, not_false_iff, Nat.sub_self, List.take_zero,
        List.append_nil]
      exact ih

/-- Greedy truncation: while the accumulated text is nonempty and within
bounds, the join loop produces exactly the `size - 1` prefix of the full
untruncated junction. -/
theorem join_loop_take (sep : List Char) (size : Nat) (h1 : 1 ≤ size) :
    ∀ (d : List CatEntry) (text : List Char), 0 < text.length →
    text.length ≤ size - 1 →
    echttp_catalog_join_loop sep size d text
      = (text ++ catalog_join_tailflat sep d).take (size - 1) := by
  intro d
  induction d with
  | nil =>
      intro text hpos hle
      rw [echttp_catalog_join_loop, catalog_join_tailflat, List.append_nil,
          List.take_of_length_le hle]
  | cons e rest ih =>
      intro text hpos hle
      simp only [echttp_catalog_join_loop, if_pos hpos, catalog_join_tailflat]
      have hcap : ¬ (size - text.length = 0) := by omega
      rw [snprintf_trunc, if_neg hcap]
      set piece := sep ++ e.name ++ ['='] ++ e.value with hpiece
      by_cases hfit : piece.length ≤ size - text.length - 1
      · rw [List.take_of_length_le hfit]
        have hlen' : (text ++ piece).length ≤ size - 1 := by
          rw [List.length_append]; omega
        have hpos' : 0 < (text ++ piece).length := by
          rw [List.length_append]; omega
        rw [ih (text ++ piece) hpos' hlen']
        simp only [hpiece, List.append_assoc]
      · have hlen' : (text ++ piece.take (size - text.length - 1)).length
            = size - 1 := by
          rw [List.length_append, List.length_take]; omega
        rw [join_loop_saturated sep size h1 rest _ hlen']
        have hsplit : (text ++ (piece ++ catalog_join_tailflat sep rest)).take (size - 1)
            = text ++ (piece ++ catalog_join_tailflat sep rest).take (size - 1 - text.length) := by
          rw [List.take_append_eq_append_take, List.take_of_length_le (by omega)]
        have hinner : (piece ++ catalog_join_tailflat sep rest).take (size - 1 - text.length)
            = piece.take (size - 1 - text.length) := by
          rw [List.take_append_eq_append_take]
          have : size - 1 - text.length - piece.length = 0 := by omega
          rw [this, List.take_zero, List.append_nil]
        have harg : size - text.length - 1 = size - 1 - text.length := by omega
        rw [harg, hsplit, hinner]

/-- C6 (corrected): `echttp_catalog_join` writes `k1=v1 sep k2=v2 …` over
the entries in insertion order — with names and values written verbatim,
NOT percent-encoded — truncated so that at most `cap - 1` characters plus
the NUL terminator are written. -/
theorem C6_join_truncated (d : List CatEntry) (sep : List Char) (size : Nat)
    (h1 : 1 ≤ size) :
    echttp_catalog_join d sep size = (catalog_join_full sep d).take (size - 1)
    ∧ (echttp_catalog_join d sep size).length ≤ size - 1 := by
  have main : echttp_catalog_join d sep size
      = (catalog_join_full sep d).take (size - 1) := by
    rcases d with _ | ⟨e, rest⟩
    · simp [echttp_catalog_join, echttp_catalog_join_loop, catalog_join_full]
    · have hcap : ¬ (size = 0) := by omega
      have step1 : echttp_catalog_join (e :: rest) sep size
          = echttp_catalog_join_loop sep size rest
              (snprintf_trunc size (e.name ++ ['='] ++ e.value)) := rfl
      rw [step1, snprintf_trunc, if_neg hcap, catalog_join_full]
      set piece := e.name ++ ['='] ++ e.value with hpiece
      have hpiecepos : 0 < piece.length := by
        rw [hpiece]
        simp only [List.length_append, List.length_singleton]
        omega
      by_cases hsz : size = 1
      · subst hsz
        rw [Nat.sub_self, List.take_zero, List.take_zero]
        exact join_loop_saturated sep 1 (by omega) rest [] (by simp)
      · by_cases hfit : piece.length ≤ size - 1
        · rw [List.take_of_length_le hfit,
              join_loop_take sep size h1 rest piece hpiecepos hfit]
        · have hlen' : (piece.take (size - 1)).length = size - 1 := by
            rw [List.length_take]; omega
          rw [join_loop_saturated sep size h1 rest _ hlen']
          have hz : size - 1 - piece.length = 0 := by omega
          conv_rhs => rw [List.take_append_eq_append_take, hz, List.take_zero,
            List.append_nil]
  refine ⟨main, ?_⟩
  rw [main, List.length_take]
  omega

theorem C6_join_truncated_witness :
    (1 : Nat) ≤ 8 ∧
    (echttp_catalog_join [⟨"a b".toList, "c/d".toList⟩] "&".toList 8
       = (catalog_join_full "&".toList [⟨"a b".toList, "c/d".toList⟩]).take (8 - 1)
     ∧ (echttp_catalog_join [⟨"a b".toList, "c/d".toList⟩] "&".toList 8).length
         ≤ 8 - 1) :=
  ⟨by decide, C6_join_truncated [⟨"a b".toList, "c/d".toList⟩] "&".toList 8 (by decide)⟩

/-- C6 counterexample: the claim says `join` percent-encodes each name and
each value; the code writes them verbatim.  On the single entry
`("a b", "c/d")` the code output `a b=c/d` differs from the spec-described
percent-encoded output `a%20b=c%2Fd`. -/
theorem C6_counterexample :
    echttp_catalog_join [⟨"a b".toList, "c/d".toList⟩] "&".toList 100
      = "a b=c/d".toList
    ∧ catalog_join_spec_encoded "&".toList [⟨"a b".toList, "c/d".toList⟩] 100
      = "a%20b=c%2Fd".toList
    ∧ "a b=c/d".toList ≠ "a%20b=c%2Fd".toList :=
  ⟨by decide, by decide, by decide⟩

/-! ### echttp_split (src/echttp.c) -/

/-- Scanner of `echttp_split`.  `cur` is the current token accumulated in
reverse.  On a separator match the current (possibly empty) token is
recorded — unless `max` tokens were already recorded, in which case the
scan returns immediately — and the scan resumes after the separator.  At
the end of the data, a nonempty trailing token is recorded (with no bound
check, exactly as in the C code).  The recursion is driven structurally by
`fuel`, which every call seeds with `data.length`; each step consumes at
least one data character, so the fuel never runs out before the data
(`echttp_split_go_fuel_irrel` below makes this formal). -/
def echttp_split_go (s0 : Char) (srest : List Char) (max : Nat) :
    Nat → List Char → List Char → Nat → List (List Char)
  | _, [], cur, _ => if cur.length > 0 then [cur.reverse] else []
  | 0, _ :: _, cur, _ => if cur.length > 0 then [cur.reverse] else []
  | fuel + 1, c :: rest, cur, cnt =>
      if (s0 :: srest).isPrefixOf (c :: rest) then
        if cnt ≥ max then []
        else cur.reverse :: echttp_split_go s0 srest max fuel
               (rest.drop srest.length) [] (cnt + 1)
      else echttp_split_go s0 srest max fuel rest (c :: cur) cnt

/-- The fuel drives nothing as long as it dominates the data length: any
two sufficient fuels give the same scan. -/
theorem echttp_split_go_fuel_irrel (s0 : Char) (srest : List Char)
    (max : Nat) :
    ∀ (f1 f2 : Nat) (data cur : List Char) (cnt : Nat),
    data.length ≤ f1 → data.length ≤ f2 →
    echttp_split_go s0 srest max f1 data cur cnt
      = echttp_split_go s0 srest max f2 data cur cnt := by
  intro f1
  induction f1 with
  | zero =>
      intro f2 data cur cnt h1 _
      have : data = [] := List.length_eq_zero.mp (Nat.le_zero.mp h1)
      subst this
      cases f2 <;> rfl
  | succ f1 ih =>
      intro f2 data cur cnt h1 h2
      cases data with
      | nil => cases f2 <;> rfl
      | cons c rest =>
          cases f2 with
          | zero => simp at h2
          | succ f2 =>
              rw [echttp_split_go, echttp_split_go]
              simp only [List.length_cons] at h1 h2
              split
              · split
                · rfl
                · have hdrop : (rest.drop srest.length).length ≤ rest.length :=
                    by simp [List.length_drop]
                  rw [ih f2 (rest.drop srest.length) [] (cnt + 1)
                      (by omega) (by omega)]
              · rw [ih f2 rest (c :: cur) cnt (by omega) (by omega)]

/-- `echttp_split` from src/echttp.c: split `data` on the separator
string, keeping empty tokens produced by adjacent separators, recording at
most `max` tokens before a separator (the C function is only ever called
with a nonempty separator; an empty separator yields `[]` here). -/
def echttp_split (sep : List Char) (max : Nat) (data : List Char) :
    List (List Char) :=
  match sep with
  | [] => []
  | s0 :: srest => echttp_split_go s0 srest max data.length data [] 0

/-- C `strstr (data, "\r\n\r\n")`, returning the text before the first
match and the text after it; `none` when the pattern does not occur before
the NUL terminator. -/
def find_end_pattern : List Char → Option (List Char × List Char)
  | [] => none
  | c :: rest =>
      if c = '\r' ∧ rest.take 3 = ['\n', '\r', '\n'] then some ([], rest.drop 3)
      else if c.toNat = 0 then none
      else (find_end_pattern rest).map (fun p => (c :: p.1, p.2))

/-- C `strstr (uri, "..") != NULL`: the string (up to a possible interior
NUL byte) has two adjacent dots. -/
def hasDotDot : List Char → Bool
  | [] => false
  | c :: rest =>
      if c = '.' ∧ rest.take 1 = ['.'] then true
      else if c.toNat = 0 then false
      else hasDotDot rest

/-! ### Route table (src/echttp.c) -/

def ECHTTP_MATCH_EXACT : Nat := 1
def ECHTTP_MATCH_PARENT : Nat := 2
def ECHTTP_MATCH_ANY : Nat := 3

/-- One route table entry (`echttp_route`).  The route table is modelled as
the list of entries `item[1..count]` in the order they were added (route
ids are 1-based; the model covers tables built by additions only, without
`echttp_route_remove`, which none of the claims involve).  `hasAsync`
states whether `asynchronous` is a non-null pointer. -/
structure EchttpRoute where
  uri : List Char
  matchKind : Nat
  hasAsync : Bool := false
deriving DecidableEq, Repr

/-- `echttp_hash_signature` (src/echttp_hash.c): identical djb2 fold to
`echttp_catalog_signature`. -/
def echttp_hash_signature (uri : List Char) : Nat :=
  echttp_catalog_signature uri

/-- `echttp_route_search` from src/echttp.c: walk the hash chain of bucket
`signature % ECHTTP_HASH`.  `echttp_route_add` prepends each new entry to
its bucket chain, so the chain holds the bucket's entries in reverse
insertion order.  An entry answers when its match flags intersect `m`, its
signature matches, and `strcmp` agrees.  Returns the 1-based route id, or
`none` for the C return value -1. -/
def echttp_route_search (routes : List EchttpRoute) (uri : List Char)
    (m : Nat) : Option Nat :=
  let sig := echttp_hash_signature uri
  (((routes.enum.filter
      (fun p => echttp_hash_signature p.2.uri % 127 = sig % 127)).reverse).find?
      (fun p => (p.2.matchKind &&& m ≠ 0) && (echttp_hash_signature p.2.uri = sig)
                 && (p.2.uri == uri))).map
    (fun p => p.1 + 1)

/-- The truncation step of the URI step-down loop in `echttp_received`
(lines 835-842 of src/echttp.c): `sep = strrchr (uri+1, '/'); *sep = 0` —
cut the string at the last `/` found at index ≥ 1; `none` when no such
slash exists (the loop ends). -/
def uri_strip_last (u : List Char) : Option (List Char) :=
  match u with
  | [] => none
  | c0 :: rest =>
      let n := (rest.reverse.findIdx (fun c => c = '/'))
      if rest.contains '/' then some (c0 :: rest.take (rest.length - 1 - n))
      else none

theorem uri_strip_last_length {u u' : List Char}
    (h : uri_strip_last u = some u') : u'.length < u.length := by
  cases u with
  | nil => simp [uri_strip_last] at h
  | cons c0 rest =>
      simp only [uri_strip_last] at h
      by_cases hc : rest.contains '/' = true
      · rw [if_pos hc] at h
        have hne : rest ≠ [] := by
          intro he; subst he; simp [List.contains] at hc
        have hlen : 0 < rest.length := List.length_pos.mpr hne
        cases h
        simp only [List.length_cons, List.length_take]
        omega
      · rw [if_neg hc] at h
        cases h

/-- The step-down loop: repeatedly strip the last path segment and search
for a PARENT route at each step, until a route is found or no separator
remains.  Structural recursion on `fuel`; since every strip shortens the
URI strictly, a fuel of `u.length` is enough (fuel 0 can only be reached
with `u` empty, on which `uri_strip_last` returns `none` anyway). -/
def echttp_uri_step_down_go (routes : List EchttpRoute) :
    Nat → List Char → Option Nat
  | 0, _ => none
  | fuel + 1, u =>
      match uri_strip_last u with
      | none => none
      | some u' =>
          match echttp_route_search routes u' ECHTTP_MATCH_PARENT with
          | some i => some i
          | none => echttp_uri_step_down_go routes fuel u'

/-- The step-down loop of `echttp_received` (lines 835-842). -/
def echttp_uri_step_down (routes : List EchttpRoute) (u : List Char) :
    Option Nat :=
  echttp_uri_step_down_go routes u.length u

/-- The route lookup performed by `echttp_received` (lines 831-851 of
src/echttp.c): verbatim search with ANY match first; on a miss, the
step-down loop over PARENT entries; then `/` as a PARENT entry; `none`
means the request is answered 404. -/
def echttp_route_lookup (routes : List EchttpRoute) (uri : List Char) :
    Option Nat :=
  match echttp_route_search routes uri ECHTTP_MATCH_ANY with
  | some i => some i
  | none =>
      match echttp_uri_step_down routes uri with
      | some i => some i
      | none => echttp_route_search routes ['/'] ECHTTP_MATCH_PARENT

/-- The chain of successively stripped URIs, longest first — the
candidates the step-down loop tries, in the order it tries them.
Same structural fuel scheme as `echttp_uri_step_down_go`. -/
def uri_strip_chain_go : Nat → List Char → List (List Char)
  | 0, _ => []
  | fuel + 1, u =>
      match uri_strip_last u with
      | none => []
      | some u' => u' :: uri_strip_chain_go fuel u'

def uri_strip_chain (u : List Char) : List (List Char) :=
  uri_strip_chain_go u.length u

/-- The step-down loop returns the first PARENT hit along the strip
chain (same fuel on both sides). -/
theorem step_down_go_eq_chain_go (routes : List EchttpRoute) :
    ∀ (fuel : Nat) (u : List Char),
    echttp_uri_step_down_go routes fuel u
      = (uri_strip_chain_go fuel u).findSome?
          (fun c => echttp_route_search routes c ECHTTP_MATCH_PARENT) := by
  intro fuel
  induction fuel with
  | zero => intro u; rfl
  | succ fuel ih =>
      intro u
      rw [echttp_uri_step_down_go, uri_strip_chain_go]
      cases hstrip : uri_strip_last u with
      | none => rfl
      | some u' =>
          show (match echttp_route_search routes u' ECHTTP_MATCH_PARENT with
                | some i => some i
                | none => echttp_uri_step_down_go routes fuel u') = _
          rw [List.findSome?_cons]
          cases hs : echttp_route_search routes u' ECHTTP_MATCH_PARENT with
          | some i => rfl
          | none => exact ih u'

theorem step_down_eq_chain (routes : List EchttpRoute) (u : List Char) :
    echttp_uri_step_down routes u
      = (uri_strip_chain u).findSome?
          (fun c => echttp_route_search routes c ECHTTP_MATCH_PARENT) :=
  step_down_go_eq_chain_go routes u.length u

/-- Stripping produces a strict prefix. -/
theorem uri_strip_last_is_strict (u u' : List Char)
    (h : uri_strip_last u = some u') :
    ∃ t, t ≠ [] ∧ u' ++ t = u := by
  cases u with
  | nil => simp [uri_strip_last] at h
  | cons c0 rest =>
      simp only [uri_strip_last] at h
      by_cases hc : rest.contains '/' = true
      · rw [if_pos hc] at h
        cases h
        refine ⟨rest.drop (rest.length - 1
          - List.findIdx (fun c => c = '/') rest.reverse), ?_, ?_⟩
        · have hne : rest ≠ [] := by
            intro he; subst he; simp [List.contains] at hc
          have hlen : 0 < rest.length := List.length_pos.mpr hne
          intro hdrop
          have := List.length_drop (rest.length - 1
            - List.findIdx (fun c => c = '/') rest.reverse) rest
          rw [hdrop] at this
          simp at this
          omega
        · rw [List.cons_append, List.take_append_drop]
      · rw [if_neg hc] at h
        cases h

/-- Every chain element is a strict prefix of the original URI, so the
first hit of the chain walk is the longest registered matching prefix. -/
theorem uri_strip_chain_strict (u : List Char) :
    ∀ c ∈ uri_strip_chain u, ∃ t, t ≠ [] ∧ c ++ t = u := by
  have H : ∀ (fuel : Nat) (u : List Char),
      ∀ c ∈ uri_strip_chain_go fuel u, ∃ t, t ≠ [] ∧ c ++ t = u := by
    intro fuel
    induction fuel with
    | zero => intro u c hc; cases hc
    | succ fuel ih =>
        intro u c hc
        rw [uri_strip_chain_go] at hc
        cases hstrip : uri_strip_last u with
        | none => rw [hstrip] at hc; cases hc
        | some u' =>
            rw [hstrip] at hc
            rcases List.mem_cons.mp hc with heq | hmem
            · subst heq
              exact uri_strip_last_is_strict u c hstrip
            · rcases ih u' c hmem with ⟨t, htne, ht⟩
              rcases uri_strip_last_is_strict u u' hstrip with ⟨t2, ht2ne, ht2⟩
              refine ⟨t ++ t2, by simp [htne], ?_⟩
              rw [← List.append_assoc, ht, ht2]
  exact H u.length u

/-! ### The HTTP codec: echttp_received (src/echttp.c lines 666-966) -/

/-- Header attribute decoding (lines 857-863): each line after the first is
split on `": "`; lines with at least two tokens are stored into the `in`
catalog. -/
def echttp_headers_decode (lines : List (List Char)) : List CatEntry :=
  lines.foldl (fun d line =>
    match echttp_split [':', ' '] 4 line with
    | p0 :: p1 :: _ => echttp_catalog_set d p0 p1
    | _ => d) []

/-- Outcome of the request-line step of `echttp_received` (server side). -/
inductive RLOut where
  /-- `echttp_invalid`: reply `406` with the given reason, connection kept. -/
  | invalid (reason : List Char)
  /-- `echttp_raw_close_client (client, "path traversal")`: no reply bytes. -/
  | traversal
  /-- A path on which the C code has undefined behaviour. -/
  | uB
  /-- `echttp_unknown`: reply `404 Not found`, connection kept. -/
  | notFound
  /-- Request line accepted: route id, stored method and URI, and the
  decoded query parameters. -/
  | ok (route : Nat) (method uri : List Char) (params : List CatEntry)
deriving DecidableEq, Repr

/-- Query parameter decoding (lines 814-829): each `&`-separated argument
with at least two `=`-separated tokens has the first two percent-decoded
and stored; a failed decode aborts with `Invalid Parameter Syntax`
(modelled as `none`). -/
def echttp_params_decode : List (List Char) → List CatEntry →
    Option (List CatEntry)
  | [], d => some d
  | a :: rest, d =>
      match echttp_split ['='] 4 a with
      | p0 :: p1 :: _ =>
          match echttp_encoding_unescape p0, echttp_encoding_unescape p1 with
          | some n, some v => echttp_params_decode rest (echttp_catalog_set d n v)
          | _, _ => none
      | _ => echttp_params_decode rest d

/-- The request-line step of `echttp_received` (lines 784-852), through the
route lookup.  Notable source behaviours carried over faithfully:
`strstr (uri, "..")` runs BEFORE the null check of the decoded URI, so a
target whose path portion fails to percent-decode reaches `strstr` with a
null pointer (undefined behaviour, `.uB`); the decoded method and URI are
passed to `snprintf` as its FORMAT string, so a decoded `%` is undefined
behaviour, and the copies truncate at 63/511 characters and at an interior
NUL byte. -/
def echttp_request_line (routes : List EchttpRoute) (line0 : List Char) :
    RLOut :=
  match echttp_split [' '] 4 line0 with
  | [r0, r1, _] =>
      (match echttp_split ['?'] 4 r1 with
       | [] => .uB
       | ru0 :: rutail =>
          match echttp_encoding_unescape ru0 with
          | none => .uB
          | some uri =>
              if hasDotDot uri then .traversal
              else
                match echttp_encoding_unescape r0 with
                | none => .invalid "Invalid request format".toList
                | some method =>
                    if method.contains '%' || uri.contains '%' then .uB
                    else
                      let storedM := (method.takeWhile (fun c => c.toNat ≠ 0)).take 63
                      let storedU := (uri.takeWhile (fun c => c.toNat ≠ 0)).take 511
                      let pres :=
                        if (ru0 :: rutail).length = 2 then
                          echttp_params_decode
                            (echttp_split ['&'] 32 (rutail.headD [])) []
                        else some []
                      match pres with
                      | none => .invalid "Invalid Parameter Syntax".toList
                      | some params =>
                          match echttp_route_lookup routes storedU with
                          | none => .notFound
                          | some i => .ok i storedM storedU params)
  | _ => .invalid "Invalid Request Line".toList

/-- The value of a byte read through a (signed) `char`. -/
def c_signed (c : Char) : Int :=
  if c.toNat ≥ 128 then (c.toNat : Int) - 256 else (c.toNat : Int)

/-- Hex digit accumulation of `strtol (…, 16)`. -/
def strtol_hex_digits : List Char → Int → Int × List Char
  | [], acc => (acc, [])
  | c :: rest, acc =>
      if c_isxdigit c then
        strtol_hex_digits rest (acc * 16 + echttp_encoding_hextoi c)
      else (acc, c :: rest)

/-- Optional sign of `strtol`. -/
def strtol_sign_skip (l : List Char) : Bool × List Char :=
  match l with
  | c :: r => if c = '-' then (true, r) else if c = '+' then (false, r)
              else (false, c :: r)
  | [] => (false, [])

/-- Optional `0x`/`0X` prefix of `strtol` base 16 (consumed only when a
hex digit follows). -/
def strtol_0x_skip (l : List Char) : List Char :=
  match l with
  | c0 :: x :: r =>
      if c0 = '0' ∧ (x = 'x' ∨ x = 'X') ∧ c_isxdigit (r.headD ' ') then r
      else c0 :: x :: r
  | l' => l'

/-- C `strtol (decode, &decode, 16)`: skip whitespace, optional sign,
optional `0x`/`0X` prefix, then hex digits; when no digit is consumed the
end pointer stays at the start. -/
def strtol_hex16 (l : List Char) : Int × List Char :=
  let sn := strtol_sign_skip (l.dropWhile c_isspace)
  let l3 := strtol_0x_skip sn.2
  match l3 with
  | c :: _ =>
      if c_isxdigit c then
        let vr := strtol_hex_digits l3 0
        (if sn.1 then -vr.1 else vr.1, vr.2)
      else (0, l)
  | [] => (0, l)

/-- The suffix right after the first `'\n'`, as located by
`while (*decode != '\n') decode += 1; decode += 1;` — `none` when there is
no newline left (the C scan then runs past the buffer: undefined
behaviour). -/
def after_newline (l : List Char) : Option (List Char) :=
  match l.dropWhile (fun c => ¬ (c = '\n')) with
  | [] => none
  | _ :: t => some t

theorem strtol_hex_digits_length (l : List Char) (acc : Int) :
    (strtol_hex_digits l acc).2.length ≤ l.length := by
  induction l generalizing acc with
  | nil => simp [strtol_hex_digits]
  | cons c rest ih =>
      rw [strtol_hex_digits]
      split
      · exact (ih _).trans (by simp)
      · simp

theorem dropWhile_length_le (p : Char → Bool) (l : List Char) :
    (l.dropWhile p).length ≤ l.length := by
  induction l with
  | nil => simp [List.dropWhile]
  | cons c rest ih =>
      rw [List.dropWhile]
      split
      · exact ih.trans (by simp)
      · exact le_refl _

theorem strtol_sign_skip_length (l : List Char) :
    (strtol_sign_skip l).2.length ≤ l.length := by
  cases l with
  | nil => simp [strtol_sign_skip]
  | cons c r =>
      rw [strtol_sign_skip]
      split
      · simp
      · split <;> simp

theorem strtol_0x_skip_length (l : List Char) :
    (strtol_0x_skip l).length ≤ l.length := by
  rcases l with _ | ⟨c0, _ | ⟨x, r⟩⟩
  · exact le_refl _
  · exact le_refl _
  · rw [strtol_0x_skip]
    split
    · simp only [List.length_cons]; omega
    · exact le_refl _

theorem strtol_hex16_length (l : List Char) :
    (strtol_hex16 l).2.length ≤ l.length := by
  rw [strtol_hex16]
  have h1 : (l.dropWhile c_isspace).length ≤ l.length :=
    dropWhile_length_le _ _
  have h2 := strtol_sign_skip_length (l.dropWhile c_isspace)
  have h3 := strtol_0x_skip_length (strtol_sign_skip (l.dropWhile c_isspace)).2
  split
  · rename_i c rest heq
    split
    · have h4 := strtol_hex_digits_length (c :: rest) 0
      rw [heq] at h3
      simp only [heq]
      simp only [List.length_cons] at h3 h4 ⊢
      omega
    · exact le_refl _
  · exact le_refl _

theorem after_newline_length {l t : List Char}
    (h : after_newline l = some t) : t.length < l.length := by
  rw [after_newline] at h
  have hd : (l.dropWhile (fun c => ¬ (c = '\n'))).length ≤ l.length :=
    dropWhile_length_le _ _
  rcases hdw : l.dropWhile (fun c => ¬ (c = '\n')) with _ | ⟨c, t'⟩ <;>
      rw [hdw] at h
  · cases h
  · cases h
    rw [hdw] at hd
    simp only [List.length_cons] at hd
    omega

/-- Outcome of the in-place chunked-body decode loop (lines 919-944). -/
inductive ChunkOut where
  /-- `echttp_raw_close_client (client, "incomplete chunked data")`. -/
  | incomplete
  /-- The C code reads or writes past the received buffer. -/
  | uB
  /-- All chunks present: `content` is their concatenation. -/
  | done (content : List Char)
deriving DecidableEq, Repr

/-- The chunked-body decode loop of `echttp_received`: skip blanks (any
byte whose signed `char` value is `<= ' '`, stopping at a NUL), fail when
the terminator was reached, read the hex chunk size, skip to after the
next LF, and concatenate `size` bytes per chunk until a zero-size chunk. -/
def echttp_chunk_loop (r : List Char) (acc : List Char) : ChunkOut :=
  match hr1 : r.dropWhile (fun c => c.toNat ≠ 0 ∧ c_signed c ≤ 32) with
  | [] => .incomplete
  | c1 :: rest1 =>
      match hnl : after_newline (strtol_hex16 (c1 :: rest1)).2 with
      | none => .uB
      | some r3 =>
          if (strtol_hex16 (c1 :: rest1)).1 = 0 then .done acc
          else if (strtol_hex16 (c1 :: rest1)).1 < 0 then .uB
          else if (r3.length : Int) < (strtol_hex16 (c1 :: rest1)).1 then .uB
          else echttp_chunk_loop (r3.drop (strtol_hex16 (c1 :: rest1)).1.toNat)
                 (acc ++ r3.take (strtol_hex16 (c1 :: rest1)).1.toNat)
termination_by r.length
decreasing_by
  have h1 : ((r.dropWhile (fun c => c.toNat ≠ 0 ∧ c_signed c ≤ 32)).length)
      ≤ r.length := dropWhile_length_le _ _
  rw [hr1] at h1
  have h2 := strtol_hex16_length (c1 :: rest1)
  have h3 := after_newline_length hnl
  simp only [List.length_drop, List.length_cons] at *
  omega

/-- Outcome of `echttp_received` on a server connection
(`context->response == 0`), starting from the IDLE state, for the first
complete HTTP PDU in the buffer. -/
inductive SrvOut where
  /-- No `\r\n\r\n` yet: return 0 consumed and wait for more bytes. -/
  | needMore
  /-- A path on which the C code has undefined behaviour. -/
  | uB
  /-- `echttp_send_error (client, status, reason)`: an HTTP error reply is
  emitted and the connection stays open. -/
  | reply (status : Nat) (reason : List Char)
  /-- `echttp_raw_close_client (client, reason)`: the connection is closed
  with NO reply bytes emitted. -/
  | closeNoReply (reason : List Char)
  /-- `Content-Length` exceeds the bytes available: the request enters the
  CONTENT (body-wait) state with the given expected length. -/
  | waitBody (contentLength : Int)
  /-- As `waitBody`, but the route's asynchronous handler was invoked with
  the partial body (lines 893-902). -/
  | waitBodyAsync (contentLength : Int)
  /-- `echttp_execute (route, client, method, uri, content, length)`: the
  request is dispatched now with the given body. -/
  | execute (route : Nat) (method uri : List Char)
      (params inHeaders : List CatEntry) (content : List Char)
deriving DecidableEq, Repr

/-- Server-side body framing (lines 855-963 of src/echttp.c): given the
accepted request line (route, stored method/URI, query parameters) and the
header lines, decode the header attributes, then frame the body from
`Content-Length` or `Transfer-Encoding: chunked` and dispatch when the
body is complete. -/
def echttp_server_framing (routes : List EchttpRoute) (route : Nat)
    (method uri : List Char) (params : List CatEntry)
    (linesTail : List (List Char)) (body : List Char) : SrvOut :=
  let inH := echttp_headers_decode linesTail
  match echttp_catalog_get inH "Content-Length".toList with
  | some v =>
      let cl0 := c_atoi v
      let cl := if cl0 < 0 then 0 else cl0
      if (body.length : Int) < cl then
        if (routes.get? (route - 1)).elim false EchttpRoute.hasAsync
        then .waitBodyAsync cl
        else .waitBody cl
      else .execute route method uri params inH (body.take cl.toNat)
  | none =>
      match echttp_catalog_get inH "Transfer-Encoding".toList with
      | some te =>
          if te ≠ "chunked".toList then
            .closeNoReply "unsupported transfer encoding".toList
          else
            match echttp_chunk_loop body [] with
            | .incomplete => .closeNoReply "incomplete chunked data".toList
            | .uB => .uB
            | .done content => .execute route method uri params inH content
      | none => .execute route method uri params inH []

/-- `echttp_received` (server side, IDLE state, no pending response), for
the first complete PDU: find `\r\n\r\n`, split the header block on `\r\n`,
process the request line (`echttp_request_line`), then frame the body
(`echttp_server_framing`). -/
def echttp_received_server (routes : List EchttpRoute) (data : List Char) :
    SrvOut :=
  match find_end_pattern data with
  | none => .needMore
  | some (header, body) =>
      match echttp_split ['\r', '\n'] 256 header with
      | [] => .uB
      | line0 :: linesTail =>
          match echttp_request_line routes line0 with
          | .invalid reason => .reply 406 reason
          | .traversal => .closeNoReply "path traversal".toList
          | .uB => .uB
          | .notFound => .reply 404 "Not found".toList
          | .ok route method uri params =>
              echttp_server_framing routes route method uri params
                linesTail body

/-- Outcome of `echttp_received` on a client connection
(`context->response != 0`), for the first complete response PDU. -/
inductive CliOut where
  /-- No `\r\n\r\n` yet: wait for more bytes. -/
  | needMore
  /-- A path on which the C code has undefined behaviour (in particular
  `atoi (strchr (line, ' '))` when the status line has no space). -/
  | uB
  /-- Status line did not start with `HTTP/1.`: `context->status = 505`,
  the response callback fires, the connection is closed with reason
  `protocol error`. -/
  | protoErr
  /-- The response callback fires with this status and body, then the
  connection is closed with reason `end of response`. -/
  | respondClose (status : Int) (content : List Char)
  /-- `Content-Length` exceeds the available bytes: enter the CONTENT
  state waiting for the rest of the body. -/
  | waitBody (status : Int) (contentLength : Int)
  /-- `echttp_raw_close_client (client, reason)` with no callback. -/
  | closeNoReply (reason : List Char)
deriving DecidableEq, Repr

/-- Client-side body framing (lines 855-956 of src/echttp.c, with
`context->response` set): decode the header attributes, then frame the
body from `Content-Length` or `Transfer-Encoding: chunked`, responding and
closing when the body is complete. -/
def echttp_client_framing (st : Int) (linesTail : List (List Char))
    (body : List Char) : CliOut :=
  let inH := echttp_headers_decode linesTail
  match echttp_catalog_get inH "Content-Length".toList with
  | some v =>
      let cl0 := c_atoi v
      let cl := if cl0 < 0 then 0 else cl0
      if (body.length : Int) < cl then .waitBody st cl
      else .respondClose st (body.take cl.toNat)
  | none =>
      match echttp_catalog_get inH "Transfer-Encoding".toList with
      | some te =>
          if te ≠ "chunked".toList then
            .closeNoReply "unsupported transfer encoding".toList
          else
            match echttp_chunk_loop body [] with
            | .incomplete => .closeNoReply "incomplete chunked data".toList
            | .uB => .uB
            | .done content => .respondClose st content
      | none => .respondClose st []

/-- `echttp_received` (client side, IDLE state, response callback pending,
no asynchronous response handler registered), for the first complete PDU:
validate the `HTTP/1.` prefix (else 505 + close with `protocol error`),
take the status as `atoi (strchr (line, ' '))` — replaced by 500 when
outside `[100, 600)` — then frame the body (`echttp_client_framing`). -/
def echttp_received_client (data : List Char) : CliOut :=
  match find_end_pattern data with
  | none => .needMore
  | some (header, body) =>
      match echttp_split ['\r', '\n'] 256 header with
      | [] => .uB
      | line0 :: linesTail =>
          if line0.take 7 ≠ "HTTP/1.".toList then .protoErr
          else
            match c_strchr line0 ' ' with
            | none => .uB
            | some tail =>
                let st0 := c_atoi tail
                echttp_client_framing
                  (if st0 < 100 ∨ st0 ≥ 600 then 500 else st0) linesTail body

/-! ### Claim C1 -/

/-- The framing stage never produces the protocol-error outcome: once the
status line was accepted, the connection is not closed with status 505. -/
theorem client_framing_ne_protoErr (st : Int) (linesTail : List (List Char))
    (body : List Char) :
    echttp_client_framing st linesTail body ≠ CliOut.protoErr := by
  rw [echttp_client_framing]
  cases echttp_catalog_get (echttp_headers_decode linesTail)
      "Content-Length".toList with
  | some v =>
      dsimp only
      split <;> split <;> simp
  | none =>
      cases echttp_catalog_get (echttp_headers_decode linesTail)
          "Transfer-Encoding".toList with
      | some te =>
          dsimp only
          split
          · simp
          · cases echttp_chunk_loop body [] <;> simp
      | none => simp

/-- C1 (corrected): on a client connection the codec validates that the
status line begins with `HTTP/1.`; when the prefix check fails it sets
status 505, fires the response callback, and closes the connection
(`protocol error`).  When the prefix is present the status is taken as
`atoi` of the text after the first space of the line; a status outside
`[100, 600)` is NOT answered with 505 — it is replaced by 500 and
processing continues with the body framing stage (the connection is not
closed for this reason). -/
theorem C1_status_line (data header body line0 : List Char)
    (linesTail : List (List Char))
    (hfind : find_end_pattern data = some (header, body))
    (hsplit : echttp_split ['\r', '\n'] 256 header = line0 :: linesTail) :
    (line0.take 7 ≠ "HTTP/1.".toList →
      echttp_received_client data = CliOut.protoErr)
    ∧ (∀ tail : List Char, line0.take 7 = "HTTP/1.".toList →
        c_strchr line0 ' ' = some tail →
        (c_atoi tail < 100 ∨ c_atoi tail ≥ 600) →
        echttp_received_client data = echttp_client_framing 500 linesTail body
        ∧ echttp_received_client data ≠ CliOut.protoErr) := by
  constructor
  · intro hpre
    simp only [echttp_received_client, hfind, hsplit]
    rw [if_pos hpre]
  · intro tail hpre hchr hrange
    have hmain : echttp_received_client data
        = echttp_client_framing 500 linesTail body := by
      simp only [echttp_received_client, hfind, hsplit]
      rw [if_neg (by simp [hpre]), hchr]
      simp only [if_pos hrange]
    exact ⟨hmain, by rw [hmain]; exact client_framing_ne_protoErr _ _ _⟩

theorem C1_status_line_witness :
    (find_end_pattern "HTTP/1.1 700 Nope\r\n\r\n".toList
      = some ("HTTP/1.1 700 Nope".toList, []))
    ∧ (echttp_split ['\r', '\n'] 256 "HTTP/1.1 700 Nope".toList
      = ["HTTP/1.1 700 Nope".toList])
    ∧ echttp_received_client "HTTP/1.1 700 Nope\r\n\r\n".toList
        = echttp_client_framing 500 [] []
    ∧ echttp_received_client "HTTP/1.1 700 Nope\r\n\r\n".toList
        ≠ CliOut.protoErr :=
  ⟨by decide, by decide,
   ((C1_status_line "HTTP/1.1 700 Nope\r\n\r\n".toList
      "HTTP/1.1 700 Nope".toList [] "HTTP/1.1 700 Nope".toList []
      (by decide) (by decide)).2 " 700 Nope".toList
      (by decide) (by decide) (by decide)).1,
   ((C1_status_line "HTTP/1.1 700 Nope\r\n\r\n".toList
      "HTTP/1.1 700 Nope".toList [] "HTTP/1.1 700 Nope".toList []
      (by decide) (by decide)).2 " 700 Nope".toList
      (by decide) (by decide) (by decide)).2⟩

/-- C1 counterexample: the claim says a status outside `[100, 600)` makes
the codec emit 505 to the response callback and close the connection.  On
the response `HTTP/1.1 700 Nope` the code instead clamps the status to 500
and completes the response normally (callback with status 500, close with
reason `end of response`, which is the normal completion path — not the
505 `protocol error` termination). -/
theorem C1_counterexample :
    echttp_received_client "HTTP/1.1 700 Nope\r\n\r\n".toList
      = CliOut.respondClose 500 []
    ∧ echttp_received_client "HTTP/1.1 700 Nope\r\n\r\n".toList
      ≠ CliOut.protoErr :=
  ⟨by decide, by decide⟩

/-! ### Claim C2 -/

/-- C2 (corrected): when the percent-decoded PATH PORTION of the target
(the part before any `?`) contains `..`, the server closes the connection
with reason `path traversal` and emits no HTTP reply bytes
(`echttp_raw_close_client` without any prior `echttp_send`). -/
theorem C2_path_traversal (routes : List EchttpRoute)
    (line0 r0 r1 r2 ru0 : List Char) (rutail : List (List Char))
    (uri : List Char)
    (hsplit : echttp_split [' '] 4 line0 = [r0, r1, r2])
    (hq : echttp_split ['?'] 4 r1 = ru0 :: rutail)
    (hdec : echttp_encoding_unescape ru0 = some uri)
    (hdots : hasDotDot uri = true) :
    echttp_request_line routes line0 = RLOut.traversal
    ∧ (∀ (data header body : List Char) (linesTail : List (List Char)),
        find_end_pattern data = some (header, body) →
        echttp_split ['\r', '\n'] 256 header = line0 :: linesTail →
        echttp_received_server routes data
          = SrvOut.closeNoReply "path traversal".toList) := by
  have hrl : echttp_request_line routes line0 = RLOut.traversal := by
    rw [echttp_request_line, hsplit]
    simp only [hq, hdec, if_pos hdots]
  refine ⟨hrl, ?_⟩
  intro data header body linesTail hfind hsplit2
  simp only [echttp_received_server, hfind, hsplit2, hrl]

theorem C2_path_traversal_witness :
    echttp_request_line [] "GET /a/../b HTTP/1.1".toList = RLOut.traversal
    ∧ echttp_received_server [] "GET /a/../b HTTP/1.1\r\n\r\n".toList
        = SrvOut.closeNoReply "path traversal".toList :=
  ⟨(C2_path_traversal [] "GET /a/../b HTTP/1.1".toList
      "GET".toList "/a/../b".toList "HTTP/1.1".toList "/a/../b".toList []
      "/a/../b".toList (by decide) (by decide) (by decide) (by decide)).1,
   (C2_path_traversal [] "GET /a/../b HTTP/1.1".toList
      "GET".toList "/a/../b".toList "HTTP/1.1".toList "/a/../b".toList []
      "/a/../b".toList (by decide) (by decide) (by decide) (by decide)).2
     "GET /a/../b HTTP/1.1\r\n\r\n".toList "GET /a/../b HTTP/1.1".toList
     [] [] (by decide) (by decide)⟩

/-- C2 counterexample: the claim covers `..` ANYWHERE in the percent-decoded
target URI, but the code splits the target on `?` first and only checks the
decoded path portion.  The request `GET /a?x=.. HTTP/1.1` has a decoded
target containing `..`, yet the server does not close with
`path traversal` — it proceeds to the route lookup and (with no routes
registered) replies 404, emitting reply bytes. -/
theorem C2_counterexample :
    echttp_encoding_unescape "/a?x=..".toList = some "/a?x=..".toList
    ∧ hasDotDot "/a?x=..".toList = true
    ∧ echttp_received_server [] "GET /a?x=.. HTTP/1.1\r\n\r\n".toList
        = SrvOut.reply 404 "Not found".toList
    ∧ SrvOut.reply 404 "Not found".toList
        ≠ SrvOut.closeNoReply "path traversal".toList :=
  ⟨by decide, by decide, by decide, by decide⟩

/-! ### Claim C4 -/

/-- C4 (corrected): a request line that does not split into exactly three
tokens is answered with `406 Invalid Request Line`, and a method with an
invalid percent-escape (the target's path decoding fine and containing no
`..`) is answered with `406 Invalid request format` — in both cases the
reply is sent and the connection is left open (`echttp_send_error` does
not close; the deliberate comment in the source says an HTTP-level error
does not break the connection).  A target path with an invalid
percent-escape is NOT answered 406: the `strstr (uri, "..")` check runs
before the null check, i.e. undefined behaviour. -/
theorem C4_parse_errors (routes : List EchttpRoute) :
    (∀ (line0 : List Char), (echttp_split [' '] 4 line0).length ≠ 3 →
      echttp_request_line routes line0
        = RLOut.invalid "Invalid Request Line".toList)
    ∧ (∀ (line0 r0 r1 r2 ru0 : List Char) (rutail : List (List Char))
        (uri : List Char),
        echttp_split [' '] 4 line0 = [r0, r1, r2] →
        echttp_split ['?'] 4 r1 = ru0 :: rutail →
        echttp_encoding_unescape ru0 = some uri →
        hasDotDot uri = false →
        echttp_encoding_unescape r0 = none →
        echttp_request_line routes line0
          = RLOut.invalid "Invalid request format".toList)
    ∧ (∀ (line0 r0 r1 r2 ru0 : List Char) (rutail : List (List Char)),
        echttp_split [' '] 4 line0 = [r0, r1, r2] →
        echttp_split ['?'] 4 r1 = ru0 :: rutail →
        echttp_encoding_unescape ru0 = none →
        echttp_request_line routes line0 = RLOut.uB)
    ∧ (∀ (data header body line0 reason : List Char)
        (linesTail : List (List Char)),
        find_end_pattern data = some (header, body) →
        echttp_split ['\r', '\n'] 256 header = line0 :: linesTail →
        echttp_request_line routes line0 = RLOut.invalid reason →
        echttp_received_server routes data = SrvOut.reply 406 reason) := by
  refine ⟨?_, ?_, ?_, ?_⟩
  · intro line0 hlen
    rw [echttp_request_line]
    rcases hsp : echttp_split [' '] 4 line0 with _ | ⟨a, _ | ⟨b, _ | ⟨c, _ | d⟩⟩⟩
    · rfl
    · rfl
    · rfl
    · rw [hsp] at hlen; simp at hlen
    · rfl
  · intro line0 r0 r1 r2 ru0 rutail uri hsplit hq hdec hdots hm
    rw [echttp_request_line, hsplit]
    simp only [hq, hdec, hdots, hm]
    rfl
  · intro line0 r0 r1 r2 ru0 rutail hsplit hq hdec
    rw [echttp_request_line, hsplit]
    simp only [hq, hdec]
  · intro data header body line0 reason linesTail hfind hsplit2 hrl
    simp only [echttp_received_server, hfind, hsplit2, hrl]

theorem C4_parse_errors_witness :
    echttp_request_line [] "GET /x".toList
      = RLOut.invalid "Invalid Request Line".toList
    ∧ echttp_request_line [] "G%zzT /x HTTP/1.1".toList
      = RLOut.invalid "Invalid request format".toList
    ∧ echttp_request_line [] "GET /%zz HTTP/1.1".toList = RLOut.uB
    ∧ echttp_received_server [] "GET /x\r\n\r\n".toList
      = SrvOut.reply 406 "Invalid Request Line".toList :=
  ⟨(C4_parse_errors []).1 "GET /x".toList (by decide),
   (C4_parse_errors []).2.1 "G%zzT /x HTTP/1.1".toList
     "G%zzT".toList "/x".toList "HTTP/1.1".toList "/x".toList []
     "/x".toList (by decide) (by decide) (by decide) (by decide) (by decide),
   (C4_parse_errors []).2.2.1 "GET /%zz HTTP/1.1".toList
     "GET".toList "/%zz".toList "HTTP/1.1".toList "/%zz".toList []
     (by decide) (by decide) (by decide),
   (C4_parse_errors []).2.2.2 "GET /x\r\n\r\n".toList "GET /x".toList []
     "GET /x".toList "Invalid Request Line".toList []
     (by decide) (by decide)
     ((C4_parse_errors []).1 "GET /x".toList (by decide))⟩

/-- C4 counterexample: the claim says the server replies 406 AND THEN
CLOSES the connection.  (1) On the two-token request line `GET /x` the
code replies `406 Invalid Request Line` through `echttp_send_error` and
returns with the connection still open — no close call exists on that
path.  (2) For a target with an invalid percent-escape the claim promises
a 406 reply, but the code passes the null decoded path to
`strstr (uri, "..")` before its null check: undefined behaviour (crash),
no reply at all. -/
theorem C4_counterexample :
    echttp_received_server [] "GET /x\r\n\r\n".toList
      = SrvOut.reply 406 "Invalid Request Line".toList
    ∧ echttp_received_server [] "GET /%zz HTTP/1.1\r\n\r\n".toList
      = SrvOut.uB :=
  ⟨by decide, by decide⟩

/-! ### Claim C9 -/

/-- C9 (confirmed): a `Content-Length` header whose value parses to a
negative integer is clamped to 0 and the message is processed as having no
body — dispatched immediately to `echttp_execute` with a null content —
rather than entering the CONTENT (body-wait) state or reporting an
error. -/
theorem C9_negative_content_length (routes : List EchttpRoute)
    (route : Nat) (method uri : List Char) (params : List CatEntry)
    (linesTail : List (List Char)) (body v : List Char)
    (hcl : echttp_catalog_get (echttp_headers_decode linesTail)
             "Content-Length".toList = some v)
    (hneg : c_atoi v < 0) :
    echttp_server_framing routes route method uri params linesTail body
      = SrvOut.execute route method uri params
          (echttp_headers_decode linesTail) [] := by
  rw [echttp_server_framing]
  simp only [hcl]
  rw [if_pos hneg]
  have hno : ¬ ((body.length : Int) < 0) := by omega
  rw [if_neg hno]
  simp

theorem C9_negative_content_length_witness :
    (echttp_catalog_get
        (echttp_headers_decode ["Content-Length: -5".toList])
        "Content-Length".toList = some "-5".toList)
    ∧ c_atoi "-5".toList < 0
    ∧ echttp_server_framing [⟨"/a".toList, ECHTTP_MATCH_PARENT, false⟩] 1
        "POST".toList "/a".toList []
        ["Content-Length: -5".toList] "XY".toList
      = SrvOut.execute 1 "POST".toList "/a".toList []
          (echttp_headers_decode ["Content-Length: -5".toList]) []
    ∧ echttp_received_server [⟨"/a".toList, ECHTTP_MATCH_PARENT, false⟩]
        "POST /a HTTP/1.1\r\nContent-Length: -5\r\n\r\nXY".toList
      = SrvOut.execute 1 "POST".toList "/a".toList []
          [⟨"Content-Length".toList, "-5".toList⟩] [] :=
  ⟨by decide, by decide,
   C9_negative_content_length [⟨"/a".toList, ECHTTP_MATCH_PARENT, false⟩] 1
     "POST".toList "/a".toList [] ["Content-Length: -5".toList] "XY".toList
     "-5".toList (by decide) (by decide),
   by decide⟩

/-! ### Claim C7 -/

/-- The route table of property P3 of the specification:
`{ "/a" Prefix, "/a/b" Prefix, "/a/b/c" Exact }` (ids 1, 2, 3). -/
def sampleRoutes : List EchttpRoute :=
  [⟨"/a".toList, ECHTTP_MATCH_PARENT, false⟩,
   ⟨"/a/b".toList, ECHTTP_MATCH_PARENT, false⟩,
   ⟨"/a/b/c".toList, ECHTTP_MATCH_EXACT, false⟩]

/-- C7 (confirmed): route lookup returns a verbatim match (Exact or
Prefix) when one exists; otherwise it walks the strip chain — the URIs
obtained by iteratively removing the trailing path segment, longest
first, every one a strict prefix of the request path, so the first
Prefix hit is the longest registered matching prefix; otherwise it falls
back to a Prefix entry at `/`; and when nothing matches the request is
answered 404.  The last five conjuncts are the concrete P3 instances of
the specification, plus the 404 answer for an unmatched path. -/
theorem C7_route_lookup (routes : List EchttpRoute) (uri : List Char) :
    (echttp_route_lookup routes uri
      = (echttp_route_search routes uri ECHTTP_MATCH_ANY).orElse (fun _ =>
          ((uri_strip_chain uri).findSome?
            (fun c => echttp_route_search routes c ECHTTP_MATCH_PARENT)).orElse
          (fun _ => echttp_route_search routes ['/'] ECHTTP_MATCH_PARENT)))
    ∧ (∀ c ∈ uri_strip_chain uri, ∃ t, t ≠ [] ∧ c ++ t = uri)
    ∧ echttp_route_lookup sampleRoutes "/a/b/c".toList = some 3
    ∧ echttp_route_lookup sampleRoutes "/a/b/c/d".toList = some 2
    ∧ echttp_route_lookup sampleRoutes "/a/x".toList = some 1
    ∧ echttp_route_lookup sampleRoutes "/z".toList = none
    ∧ echttp_received_server sampleRoutes "GET /z HTTP/1.1\r\n\r\n".toList
        = SrvOut.reply 404 "Not found".toList := by
  refine ⟨?_, uri_strip_chain_strict uri, by decide, by decide, by decide,
    by decide, by decide⟩
  conv_rhs => rw [← step_down_eq_chain routes uri]
  rw [echttp_route_lookup]
  cases echttp_route_search routes uri ECHTTP_MATCH_ANY
  · cases echttp_uri_step_down routes uri <;> rfl
  · rfl

theorem C7_route_lookup_witness :
    (echttp_route_lookup sampleRoutes "/a/b/c/d".toList
      = (echttp_route_search sampleRoutes "/a/b/c/d".toList
          ECHTTP_MATCH_ANY).orElse (fun _ =>
          ((uri_strip_chain "/a/b/c/d".toList).findSome?
            (fun c => echttp_route_search sampleRoutes c
                        ECHTTP_MATCH_PARENT)).orElse
          (fun _ => echttp_route_search sampleRoutes ['/']
                      ECHTTP_MATCH_PARENT)))
    ∧ (∃ t, t ≠ [] ∧ "/a/b".toList ++ t = "/a/b/c/d".toList) :=
  ⟨(C7_route_lookup sampleRoutes "/a/b/c/d".toList).1,
   (C7_route_lookup sampleRoutes "/a/b/c/d".toList).2.1 "/a/b".toList
     (by decide)⟩

/-! ### Request context, protect phase, accessors (src/echttp.c) -/

def ECHTTP_STATE_IDLE : Nat := 0
def ECHTTP_STATE_CONTENT : Nat := 1
def ECHTTP_STATE_ERROR : Nat := 2

def ECHTTP_TRANSFER_IDLE : Nat := 0
def ECHTTP_TRANSFER_IN : Nat := 1
def ECHTTP_TRANSFER_OUT : Nat := 2

/-- The `transfer` record of an `echttp_request`. -/
structure TransferState where
  state : Nat
  fd : Int
  size : Int
deriving DecidableEq, Repr

/-- `echttp_transfer_reset`. -/
def echttp_transfer_reset : TransferState :=
  ⟨ECHTTP_TRANSFER_IDLE, -1, 0⟩

/-- The fields of the per-request context (`echttp_request`) that the
protect phase and the public accessors read and write.  `hasAsync` states
whether `context->asynchronous` is a non-null pointer. -/
structure EchttpRequestCtx where
  state : Nat
  route : Nat
  inH : List CatEntry
  out : List CatEntry
  params : List CatEntry
  status : Int
  reason : List Char
  contentlengthout : Int
  transfer : TransferState
  hasAsync : Bool
  protected_done : Bool
deriving DecidableEq, Repr

/-- `echttp_has_error`: `status / 100 > 3` with C (truncating) integer
division. -/
def echttp_has_error (status : Int) : Bool :=
  Int.tdiv status 100 > 3

/-- Result of `echttp_execute_protect`: the context after the protect
phase, the `echttp_send_error (client, status, reason)` call it made (if
any), and the C return value (`true` = 1 = proceed to the handler,
`false` = 0 = skip). -/
structure ProtectResult where
  ctx : EchttpRequestCtx
  sendError : Option (Int × List Char)
  passed : Bool
deriving Repr

/-- The callback-running part of `echttp_execute_protect` (lines
428-440): reset status/reason/out/transfer, run the global protect, then
the route protect only if the status is still 200. -/
def echttp_protect_run
    (globalProtect routeProtect : Option (EchttpRequestCtx → EchttpRequestCtx))
    (ctx : EchttpRequestCtx) : EchttpRequestCtx :=
  let c1 : EchttpRequestCtx :=
    { ctx with status := 200, reason := "OK".toList, out := [],
               transfer := echttp_transfer_reset }
  let c2 := match globalProtect with
            | some f => f c1
            | none => c1
  if c2.status = 200 then
    (match routeProtect with
     | some f => f c2
     | none => c2)
  else c2

/-- The decision part of `echttp_execute_protect` (lines 441-456), as a
function of the context left by the protect callbacks. -/
def echttp_protect_decision (c3 : EchttpRequestCtx) : ProtectResult :=
  if c3.status = 204 then ⟨c3, some (204, c3.reason), false⟩
  else if echttp_has_error c3.status then
    ⟨c3, some (c3.status, c3.reason), false⟩
  else ⟨{ c3 with protected_done := true }, none, true⟩

/-- `echttp_execute_protect` from src/echttp.c (lines 421-457): returns 1
at once when the protect phase already ran for this message, else runs
the callbacks (`echttp_protect_run`, modelled as arbitrary context
transformers, since in C they mutate the request state through the public
accessors; `none` is a null callback pointer) and decides
(`echttp_protect_decision`). -/
def echttp_execute_protect
    (globalProtect routeProtect : Option (EchttpRequestCtx → EchttpRequestCtx))
    (ctx : EchttpRequestCtx) : ProtectResult :=
  if ctx.protected_done then ⟨ctx, none, true⟩
  else echttp_protect_decision (echttp_protect_run globalProtect routeProtect ctx)

/-- The handler-invocation decision of `echttp_execute` (lines 518-524):
`if (! echttp_execute_protect (...)) return;` — the route handler runs
exactly when the protect phase returned 1.  (`echttp_execute_async` at
lines 465-469 gates its asynchronous handler identically.) -/
def echttp_execute_handler_invoked
    (globalProtect routeProtect : Option (EchttpRequestCtx → EchttpRequestCtx))
    (ctx : EchttpRequestCtx) : Bool :=
  (echttp_execute_protect globalProtect routeProtect ctx).passed

/-- `echttp_attribute_get`. -/
def echttp_attribute_get (current : Option EchttpRequestCtx)
    (name : List Char) : Option (List Char) :=
  match current with
  | none => none
  | some c => echttp_catalog_get c.inH name

/-- `echttp_parameter_get`. -/
def echttp_parameter_get (current : Option EchttpRequestCtx)
    (name : List Char) : Option (List Char) :=
  match current with
  | none => none
  | some c => echttp_catalog_get c.params name

/-- `echttp_attribute_set`: returns the updated current context (`none`
means the global `echttp_current` was null and nothing changed). -/
def echttp_attribute_set (current : Option EchttpRequestCtx)
    (name value : List Char) : Option EchttpRequestCtx :=
  match current with
  | none => none
  | some c => some { c with out := echttp_catalog_set c.out name value }

/-- `echttp_transfer` (the public mutator, lines 1170-1186): a no-op when
there is no current request or a transfer is already scheduled; otherwise
the direction defaults to OUT, switched to IN when receiving content for
an asynchronous response or an asynchronous route. -/
def echttp_transfer (current : Option EchttpRequestCtx)
    (routes : List EchttpRoute) (fd size : Int) : Option EchttpRequestCtx :=
  match current with
  | none => none
  | some c =>
      if c.transfer.state ≠ ECHTTP_TRANSFER_IDLE then some c
      else
        let dir := if c.state = ECHTTP_STATE_CONTENT ∧
                      (c.hasAsync ∨ (c.route ≠ 0 ∧
                        (routes.get? (c.route - 1)).elim false EchttpRoute.hasAsync))
                   then ECHTTP_TRANSFER_IN else ECHTTP_TRANSFER_OUT
        some { c with transfer := ⟨dir, fd, size⟩ }

/-- `echttp_error`. -/
def echttp_error (current : Option EchttpRequestCtx) (code : Int)
    (message : List Char) : Option EchttpRequestCtx :=
  match current with
  | none => none
  | some c => some { c with status := code, reason := message }

/-- `echttp_reason`. -/
def echttp_reason (current : Option EchttpRequestCtx) : Option (List Char) :=
  match current with
  | none => none
  | some c => some c.reason

/-- `echttp_content_length` (the output-length override setter). -/
def echttp_content_length (current : Option EchttpRequestCtx)
    (length : Int) : Option EchttpRequestCtx :=
  match current with
  | none => none
  | some c => some { c with contentlengthout := length }

/-! ### Claim C5 -/

/-- C5 (corrected): when the context has not been protected yet, run the
global protect then (if the status is still 200) the route protect.  If
the resulting status is 204, the server sends `send_error (204, reason)`
and skips the handler.  If the resulting status is an HTTP error
(`status / 100 > 3`, i.e. 4xx/5xx), the server short-circuits with
`send_error (status, reason)` and never invokes the route handler.  Any
OTHER status — including 1xx, 2xx other than 204, and 3xx redirects,
which are all non-2xx or non-200 — does NOT short-circuit: the route
handler is invoked. -/
theorem C5_protect_short_circuit
    (gp rp : Option (EchttpRequestCtx → EchttpRequestCtx))
    (ctx : EchttpRequestCtx) (hnp : ctx.protected_done = false) :
    ((echttp_execute_protect gp rp ctx).ctx.status = 204 →
      (echttp_execute_protect gp rp ctx).sendError
        = some (204, (echttp_execute_protect gp rp ctx).ctx.reason)
      ∧ echttp_execute_handler_invoked gp rp ctx = false)
    ∧ (echttp_has_error (echttp_execute_protect gp rp ctx).ctx.status = true →
      (echttp_execute_protect gp rp ctx).sendError
        = some ((echttp_execute_protect gp rp ctx).ctx.status,
                (echttp_execute_protect gp rp ctx).ctx.reason)
      ∧ echttp_execute_handler_invoked gp rp ctx = false)
    ∧ ((echttp_execute_protect gp rp ctx).ctx.status ≠ 204 →
      echttp_has_error (echttp_execute_protect gp rp ctx).ctx.status = false →
      (echttp_execute_protect gp rp ctx).sendError = none
      ∧ echttp_execute_handler_invoked gp rp ctx = true) := by
  have heq : echttp_execute_protect gp rp ctx
      = echttp_protect_decision (echttp_protect_run gp rp ctx) := by
    rw [echttp_execute_protect, if_neg (by simp [hnp])]
  rw [echttp_execute_handler_invoked, heq]
  set c3 := echttp_protect_run gp rp ctx with hc3
  clear heq hc3
  rw [echttp_protect_decision]
  by_cases h204 : c3.status = 204
  · rw [if_pos h204]
    dsimp only
    refine ⟨fun _ => ⟨rfl, rfl⟩, ?_, ?_⟩
    · intro herr
      rw [h204] at herr
      exact absurd herr (by decide)
    · intro hne _
      exact absurd h204 hne
  · rw [if_neg h204]
    by_cases herr : echttp_has_error c3.status = true
    · rw [if_pos herr]
      dsimp only
      exact ⟨fun h => absurd h h204, fun _ => ⟨rfl, rfl⟩,
        fun _ herr2 => by rw [herr] at herr2; cases herr2⟩
    · rw [if_neg herr]
      dsimp only
      refine ⟨fun h => absurd h h204, ?_, fun _ _ => ⟨rfl, rfl⟩⟩
      intro herr2
      exact absurd herr2 herr

/-- C5 counterexample: a route protect callback that sets status 307
(`echttp_redirect` inside a protect callback).  307 is a non-2xx status
other than 204, so the claim demands a short-circuit with
`send_error (307, ...)` and no handler call; the code instead proceeds to
invoke the route handler with no error sent. -/
theorem C5_counterexample :
    (echttp_execute_protect none
      (some (fun c => { c with status := 307,
                               reason := "Temporary Redirect".toList }))
      ⟨ECHTTP_STATE_IDLE, 0, [], [], [], 200, "OK".toList, 0,
       echttp_transfer_reset, false, false⟩).passed = true
    ∧ (echttp_execute_protect none
      (some (fun c => { c with status := 307,
                               reason := "Temporary Redirect".toList }))
      ⟨ECHTTP_STATE_IDLE, 0, [], [], [], 200, "OK".toList, 0,
       echttp_transfer_reset, false, false⟩).sendError = none
    ∧ (echttp_execute_protect none
      (some (fun c => { c with status := 307,
                               reason := "Temporary Redirect".toList }))
      ⟨ECHTTP_STATE_IDLE, 0, [], [], [], 200, "OK".toList, 0,
       echttp_transfer_reset, false, false⟩).ctx.status = 307 :=
  ⟨rfl, rfl, rfl⟩

theorem C5_protect_short_circuit_witness :
    (echttp_execute_protect none
      (some (fun c => { c with status := 404,
                               reason := "nope".toList }))
      ⟨ECHTTP_STATE_IDLE, 0, [], [], [], 200, "OK".toList, 0,
       echttp_transfer_reset, false, false⟩).sendError
      = some (404, "nope".toList)
    ∧ echttp_execute_handler_invoked none
      (some (fun c => { c with status := 404,
                               reason := "nope".toList }))
      ⟨ECHTTP_STATE_IDLE, 0, [], [], [], 200, "OK".toList, 0,
       echttp_transfer_reset, false, false⟩ = false := by
  have h := (C5_protect_short_circuit none
    (some (fun c => { c with status := 404, reason := "nope".toList }))
    ⟨ECHTTP_STATE_IDLE, 0, [], [], [], 200, "OK".toList, 0,
     echttp_transfer_reset, false, false⟩ rfl).2.1 (by decide)
  exact ⟨h.1, h.2⟩

/-! ### Claim C10 -/

/-- C10 (confirmed): every public request accessor and mutator checks the
process-wide current-request pointer first; with `echttp_current` null
(outside any handler, protect, or response callback) the getters return
the null pointer and the mutators change no state at all. -/
theorem C10_accessors_null_current :
    ∀ (name value message : List Char) (routes : List EchttpRoute)
      (fd size code length : Int),
    echttp_attribute_get none name = none
    ∧ echttp_parameter_get none name = none
    ∧ echttp_attribute_set none name value = none
    ∧ echttp_transfer none routes fd size = none
    ∧ echttp_error none code message = none
    ∧ echttp_reason none = none
    ∧ echttp_content_length none length = none := by
  intro name value message routes fd size code length
  exact ⟨rfl, rfl, rfl, rfl, rfl, rfl, rfl⟩

/-! ### echttp_raw.c: the output pipeline (send / transfer / transmit) -/

def ECHTTP_CLIENT_BUFFER : Nat := 131072
def ETH_MAX_FRAME : Nat := 1500

/-- One output buffer (`echttp_buffer`): the written bytes `data[0..end)`
as a list (so `end` is `data.length`), plus the consumed offset
`start`. -/
structure RawBuffer where
  data : List Nat
  start : Nat
deriving DecidableEq, Repr

/-- The bytes still to transmit: `data[start..end)`. -/
def RawBuffer.pending (b : RawBuffer) : List Nat := b.data.drop b.start

/-- `echttp_raw_consume`: advance `start`; when everything was consumed,
reset `start = end = 0` (the stale array content is dropped from the
model, matching the C semantics where only `[start, end)` is live). -/
def echttp_raw_consume (b : RawBuffer) (sent : Nat) : RawBuffer :=
  if b.start + sent ≥ b.data.length then ⟨[], 0⟩ else ⟨b.data, b.start + sent⟩

/-- The output side of one TCP slot (`echttp_raw_tcp`): the inline `out`
buffer, the overflow queue, and the pending Out transfer —
`transferFile` models the remaining readable content of the transfer file
descriptor and `transferSize` is `transfer.size`. -/
structure RawTcpOut where
  out : RawBuffer
  queue : List RawBuffer
  transferFile : List Nat
  transferSize : Int
deriving DecidableEq, Repr

/-- A freshly initialized slot (`echttp_raw_io_new`, TCP case). -/
def rawInit : RawTcpOut := ⟨⟨[], 0⟩, [], [], 0⟩

/-- The inline-buffer part of `echttp_raw_send` (lines 733-742): fill the
inline buffer up to its capacity, return the leftover bytes. -/
def echttp_raw_send_inline (b : RawBuffer) (data : List Nat) :
    RawBuffer × List Nat :=
  let empty := ECHTTP_CLIENT_BUFFER - b.data.length
  if 0 < empty then
    ({ b with data := b.data ++ data.take empty }, data.drop empty)
  else (b, data)

/-- The overflow-queue part of `echttp_raw_send` (lines 743-763): while
bytes remain, append to the last queue buffer, allocating a fresh buffer
(and filling it in the same iteration) when the last one is full or the
queue is empty.  Structural fuel, seeded with `data.length`; each
iteration consumes at least one byte, so the fuel never runs out before
the data. -/
def echttp_raw_send_queue : Nat → List Nat → List RawBuffer → List RawBuffer
  | _, [], q => q
  | 0, _ :: _, q => q
  | fuel + 1, d :: rest, q =>
      match q.getLast? with
      | some b =>
          if ECHTTP_CLIENT_BUFFER - b.data.length = 0 then
            echttp_raw_send_queue fuel ((d :: rest).drop ECHTTP_CLIENT_BUFFER)
              (q ++ [⟨(d :: rest).take ECHTTP_CLIENT_BUFFER, 0⟩])
          else
            let filled : RawBuffer :=
              ⟨b.data ++ (d :: rest).take (ECHTTP_CLIENT_BUFFER - b.data.length),
               b.start⟩
            echttp_raw_send_queue fuel
              ((d :: rest).drop (ECHTTP_CLIENT_BUFFER - b.data.length))
              (q.dropLast ++ [filled])
      | none =>
          echttp_raw_send_queue fuel ((d :: rest).drop ECHTTP_CLIENT_BUFFER)
            [⟨(d :: rest).take ECHTTP_CLIENT_BUFFER, 0⟩]

/-- `echttp_raw_send`: buffer the data (inline first, then the overflow
queue); nothing is written to the socket here. -/
def echttp_raw_send (st : RawTcpOut) (data : List Nat) : RawTcpOut :=
  let ir := echttp_raw_send_inline st.out data
  { st with out := ir.1,
            queue := echttp_raw_send_queue ir.2.length ir.2 st.queue }

/-- `echttp_raw_transfer`: record the transfer file descriptor (here: its
remaining content) and size. -/
def echttp_raw_transfer (st : RawTcpOut) (file : List Nat) (length : Int) :
    RawTcpOut :=
  { st with transferFile := file, transferSize := length }

/-- Result of one `echttp_raw_transmit` call: either some bytes were
handed to the socket and the state advanced, or `send`/`sendfile`
returned a non-positive count (transient errors leave the state as-is and
emit nothing, fatal ones close the slot — either way no bytes go out). -/
inductive TransmitResult where
  | progress (st : RawTcpOut) (sent : List Nat)
  | stop
deriving DecidableEq, Repr

/-- The `sendfile` part of `echttp_raw_transmit` (lines 607-637), reached
only when both buffers are drained: push up to `ETH_MAX_FRAME` file bytes;
on completion (`size <= 0`) close the transfer fd.  `k` models the number
of bytes the socket accepts (the `sendfile` return value is
`min k (min (min size 1500) (file remaining))`). -/
def echttp_raw_transmit_file (st : RawTcpOut) (k : Nat) : TransmitResult :=
  if 0 < st.transferSize then
    let req := min st.transferSize (ETH_MAX_FRAME : Int)
    let sent := min k (min req.toNat st.transferFile.length)
    if sent = 0 then .stop
    else
      if st.transferSize - sent ≤ 0 then
        .progress { st with transferFile := [], transferSize := 0 }
          (st.transferFile.take sent)
      else
        .progress { st with transferFile := st.transferFile.drop sent,
                            transferSize := st.transferSize - sent }
          (st.transferFile.take sent)
  else .progress st []

/-- `echttp_raw_transmit` (lines 559-637): send from the inline buffer if
it has pending bytes, else from the head of the overflow queue (freeing it
when fully drained), and only when both are empty start `sendfile`.  `k`
models the byte count the socket accepts on this call (the `send` return
value is `min k (min pending 1500)`). -/
def echttp_raw_transmit (st : RawTcpOut) (k : Nat) : TransmitResult :=
  if st.out.pending.length > 0 then
    let sent := min k (min st.out.pending.length ETH_MAX_FRAME)
    if sent = 0 then .stop
    else .progress { st with out := echttp_raw_consume st.out sent }
           (st.out.pending.take sent)
  else
    match st.queue with
    | b :: qrest =>
        if b.pending.length > 0 then
          let sent := min k (min b.pending.length ETH_MAX_FRAME)
          if sent = 0 then .stop
          else
            let b' := echttp_raw_consume b sent
            if b'.data.length = 0 then
              .progress { st with queue := qrest } (b.pending.take sent)
            else .progress { st with queue := b' :: qrest }
                   (b.pending.take sent)
        else echttp_raw_transmit_file st k
    | [] => echttp_raw_transmit_file st k

/-- Iterated transmission: one `echttp_raw_transmit` per writable-ready
tick, with `ks` the socket-accepted byte counts; returns the final state
and the concatenated wire trace. -/
def echttp_raw_drain (st : RawTcpOut) : List Nat → RawTcpOut × List Nat
  | [] => (st, [])
  | k :: ks =>
      match echttp_raw_transmit st k with
      | .progress st' sent =>
          let r := echttp_raw_drain st' ks
          (r.1, sent ++ r.2)
      | .stop => (st, [])

/-- All pending bytes of the overflow queue, FIFO. -/
def queueFlat : List RawBuffer → List Nat
  | [] => []
  | b :: rest => b.pending ++ queueFlat rest

/-- The buffered (non-transfer) bytes still to be sent, in wire order. -/
def RawTcpOut.buffered (st : RawTcpOut) : List Nat :=
  st.out.pending ++ queueFlat st.queue

/-- The transfer bytes still to be sent. -/
def RawTcpOut.filePending (st : RawTcpOut) : List Nat :=
  st.transferFile.take st.transferSize.toNat

/-- Everything still to be sent, in the order the transmitter emits it:
inline buffer, then overflow queue, then file bytes. -/
def RawTcpOut.pendingBytes (st : RawTcpOut) : List Nat :=
  st.buffered ++ st.filePending

/-- The state well-formedness the raw layer maintains. -/
def RawInv (st : RawTcpOut) : Prop :=
  st.out.start ≤ st.out.data.length
  ∧ st.out.data.length ≤ ECHTTP_CLIENT_BUFFER
  ∧ (∀ b ∈ st.queue, b.start < b.data.length
      ∧ b.data.length ≤ ECHTTP_CLIENT_BUFFER)
  ∧ st.transferSize.toNat ≤ st.transferFile.length

/-- Queue well-formedness: every overflow buffer has something pending
and respects the buffer capacity. -/
def QInv (q : List RawBuffer) : Prop :=
  ∀ b ∈ q, b.start < b.data.length ∧ b.data.length ≤ ECHTTP_CLIENT_BUFFER

theorem queueFlat_append (xs ys : List RawBuffer) :
    queueFlat (xs ++ ys) = queueFlat xs ++ queueFlat ys := by
  induction xs with
  | nil => rfl
  | cons b rest ih => simp [queueFlat, ih]

theorem RawBuffer.pending_mk (data : List Nat) (start : Nat) :
    (RawBuffer.mk data start).pending = data.drop start := rfl

theorem echttp_raw_send_queue_last_none (fuel d : Nat) (rest : List Nat)
    (q : List RawBuffer) (h : q.getLast? = none) :
    echttp_raw_send_queue (fuel + 1) (d :: rest) q =
      echttp_raw_send_queue fuel ((d :: rest).drop ECHTTP_CLIENT_BUFFER)
        [⟨(d :: rest).take ECHTTP_CLIENT_BUFFER, 0⟩] := by
  rw [echttp_raw_send_queue, h]

theorem echttp_raw_send_queue_last_some (fuel d : Nat) (rest : List Nat)
    (q : List RawBuffer) (b : RawBuffer) (h : q.getLast? = some b) :
    echttp_raw_send_queue (fuel + 1) (d :: rest) q =
      if ECHTTP_CLIENT_BUFFER - b.data.length = 0 then
        echttp_raw_send_queue fuel ((d :: rest).drop ECHTTP_CLIENT_BUFFER)
          (q ++ [⟨(d :: rest).take ECHTTP_CLIENT_BUFFER, 0⟩])
      else
        echttp_raw_send_queue fuel
          ((d :: rest).drop (ECHTTP_CLIENT_BUFFER - b.data.length))
          (q.dropLast ++
            [⟨b.data ++ (d :: rest).take (ECHTTP_CLIENT_BUFFER - b.data.length),
              b.start⟩]) := by
  rw [echttp_raw_send_queue, h]

theorem echttp_raw_send_queue_spec :
    ∀ (fuel : Nat) (data : List Nat) (q : List RawBuffer),
    data.length ≤ fuel → QInv q →
    queueFlat (echttp_raw_send_queue fuel data q) = queueFlat q ++ data
    ∧ QInv (echttp_raw_send_queue fuel data q) := by
  intro fuel
  induction fuel with
  | zero =>
      intro data q hd hq
      have hde : data = [] := List.length_eq_zero.mp (Nat.le_zero.mp hd)
      subst hde
      exact ⟨by simp [echttp_raw_send_queue], hq⟩
  | succ fuel ih =>
      intro data q hd hq
      cases data with
      | nil => exact ⟨by simp [echttp_raw_send_queue], hq⟩
      | cons d rest =>
          simp only [List.length_cons] at hd
          cases hlast : q.getLast? with
          | none =>
              rw [echttp_raw_send_queue_last_none fuel d rest q hlast]
              have hqe : q = [] := by
                cases q with
                | nil => rfl
                | cons x xs =>
                    rw [List.getLast?_eq_getLast_of_ne_nil
                      (List.cons_ne_nil x xs)] at hlast
                    cases hlast
              subst hqe
              have hlen : ((d :: rest).drop ECHTTP_CLIENT_BUFFER).length ≤ fuel := by
                simp only [List.length_drop, List.length_cons]
                have : 1 ≤ ECHTTP_CLIENT_BUFFER := by decide
                omega
              have hq1 : QInv [⟨(d :: rest).take ECHTTP_CLIENT_BUFFER, 0⟩] := by
                intro b hb
                simp at hb
                subst hb
                simp only [List.length_take, List.length_cons]
                constructor
                · have : 1 ≤ ECHTTP_CLIENT_BUFFER := by decide
                  omega
                · omega
              rcases ih _ _ hlen hq1 with ⟨h1, h2⟩
              refine ⟨?_, h2⟩
              rw [h1]
              simp [queueFlat, RawBuffer.pending_mk, List.take_append_drop]
          | some b =>
              rw [echttp_raw_send_queue_last_some fuel d rest q b hlast]
              have hqsplit : q.dropLast ++ [b] = q :=
                List.dropLast_append_getLast? b (by rw [hlast]; rfl)
              have hbq : b ∈ q := by
                rw [← hqsplit]; simp
              have hbinv := hq b hbq
              by_cases hfull : ECHTTP_CLIENT_BUFFER - b.data.length = 0
              · rw [if_pos hfull]
                have hlen : ((d :: rest).drop ECHTTP_CLIENT_BUFFER).length
                    ≤ fuel := by
                  simp only [List.length_drop, List.length_cons]
                  have : 1 ≤ ECHTTP_CLIENT_BUFFER := by decide
                  omega
                have hq1 : QInv (q ++ [⟨(d :: rest).take ECHTTP_CLIENT_BUFFER, 0⟩]) := by
                  intro x hx
                  rcases List.mem_append.mp hx with hx | hx
                  · exact hq x hx
                  · simp at hx
                    subst hx
                    simp only [List.length_take, List.length_cons]
                    have : 1 ≤ ECHTTP_CLIENT_BUFFER := by decide
                    omega
                rcases ih _ _ hlen hq1 with ⟨h1, h2⟩
                refine ⟨?_, h2⟩
                rw [h1, queueFlat_append]
                simp [queueFlat, RawBuffer.pending_mk, List.append_assoc,
                  List.take_append_drop]
              · rw [if_neg hfull]
                have he1 : 1 ≤ ECHTTP_CLIENT_BUFFER - b.data.length :=
                  Nat.pos_of_ne_zero hfull
                have hlen : ((d :: rest).drop
                    (ECHTTP_CLIENT_BUFFER - b.data.length)).length ≤ fuel := by
                  simp only [List.length_drop, List.length_cons]
                  omega
                have hq1 : QInv (q.dropLast ++
                    [⟨b.data ++ (d :: rest).take
                        (ECHTTP_CLIENT_BUFFER - b.data.length), b.start⟩]) := by
                  intro x hx
                  rcases List.mem_append.mp hx with hx | hx
                  · exact hq x (by rw [← hqsplit]; exact List.mem_append_left _ hx)
                  · simp at hx
                    subst hx
                    simp only [List.length_append, List.length_take,
                      List.length_cons]
                    constructor
                    · omega
                    · omega
                rcases ih _ _ hlen hq1 with ⟨h1, h2⟩
                refine ⟨?_, h2⟩
                rw [h1, queueFlat_append]
                conv_rhs => rw [← hqsplit, queueFlat_append]
                have hfp : (RawBuffer.mk (b.data ++ (d :: rest).take
                    (ECHTTP_CLIENT_BUFFER - b.data.length)) b.start).pending
                    = b.pending ++ (d :: rest).take
                        (ECHTTP_CLIENT_BUFFER - b.data.length) := by
                  simp only [RawBuffer.pending, List.drop_append_eq_append_drop]
                  have : b.start - b.data.length = 0 := by omega
                  rw [this, List.drop_zero]
                simp only [queueFlat, hfp, List.append_nil, List.append_assoc,
                  List.take_append_drop]

/-- Consuming `sent` bytes drops them from the pending view. -/
theorem echttp_raw_consume_pending (b : RawBuffer) (sent : Nat)
    (hs : b.start ≤ b.data.length) (hle : sent ≤ b.pending.length) :
    (echttp_raw_consume b sent).pending = b.pending.drop sent := by
  rw [echttp_raw_consume]
  by_cases h : b.start + sent ≥ b.data.length
  · rw [if_pos h]
    have hlen : b.pending.length ≤ sent := by
      simp only [RawBuffer.pending, List.length_drop]
      omega
    rw [RawBuffer.pending_mk, (List.drop_eq_nil_of_le hlen).symm]
    rfl
  · rw [if_neg h]
    rw [RawBuffer.pending_mk, RawBuffer.pending, List.drop_drop,
      Nat.add_comm]

/-- The no-reordering side condition `echttp_raw_send` relies on: the
overflow queue is only ever non-empty while the inline buffer is full
(true for a fresh slot, and preserved by consecutive sends). -/
def SendInv (st : RawTcpOut) : Prop :=
  st.queue = [] ∨ st.out.data.length = ECHTTP_CLIENT_BUFFER

/-- `echttp_raw_send` appends the data to the buffered bytes (in wire
order), touches neither transfer field, and preserves the invariants. -/
theorem echttp_raw_send_spec (st : RawTcpOut) (a : List Nat)
    (hinv : RawInv st) (hsi : SendInv st) :
    (echttp_raw_send st a).buffered = st.buffered ++ a
    ∧ (echttp_raw_send st a).transferFile = st.transferFile
    ∧ (echttp_raw_send st a).transferSize = st.transferSize
    ∧ RawInv (echttp_raw_send st a)
    ∧ SendInv (echttp_raw_send st a) := by
  obtain ⟨out, queue, tf, ts⟩ := st
  obtain ⟨hs1, hs2, hs3, hs4⟩ := hinv
  dsimp only at hs1 hs2 hs3 hs4
  rw [echttp_raw_send]
  rw [echttp_raw_send_inline]
  dsimp only
  by_cases hempty : 0 < ECHTTP_CLIENT_BUFFER - out.data.length
  · rw [if_pos hempty]
    dsimp only
    have hqinv : QInv queue := hs3
    rcases echttp_raw_send_queue_spec
        (a.drop (ECHTTP_CLIENT_BUFFER - out.data.length)).length
        (a.drop (ECHTTP_CLIENT_BUFFER - out.data.length)) queue
        (Nat.le_refl _) hqinv with ⟨hq1, hq2⟩
    have hpend : (RawBuffer.mk (out.data ++
        a.take (ECHTTP_CLIENT_BUFFER - out.data.length)) out.start).pending
        = out.pending ++ a.take (ECHTTP_CLIENT_BUFFER - out.data.length) := by
      rw [RawBuffer.pending_mk, RawBuffer.pending,
        List.drop_append_eq_append_drop]
      have hz : out.start - out.data.length = 0 := by omega
      rw [hz, List.drop_zero]
    refine ⟨?_, rfl, rfl, ?_, ?_⟩
    · rw [RawTcpOut.buffered]
      dsimp only
      rw [hq1, hpend, RawTcpOut.buffered]
      dsimp only
      rcases hsi with hqe | hfull
      · dsimp only at hqe
        subst hqe
        simp [queueFlat, List.append_assoc, List.take_append_drop]
      · dsimp only at hfull
        omega
    · refine ⟨?_, ?_, hq2, hs4⟩
      · dsimp only
        simp only [List.length_append, List.length_take]
        omega
      · dsimp only
        simp only [List.length_append, List.length_take]
        omega
    · by_cases hleft : a.drop (ECHTTP_CLIENT_BUFFER - out.data.length) = []
      · rcases hsi with hqe | hfull
        · dsimp only at hqe
          subst hqe
          left
          dsimp only
          rw [hleft]
          rfl
        · dsimp only at hfull
          omega
      · right
        dsimp only
        simp only [List.length_append, List.length_take]
        have : ECHTTP_CLIENT_BUFFER - out.data.length ≤ a.length := by
          by_contra hcon
          exact hleft (List.drop_eq_nil_of_le (by omega))
        omega
  · rw [if_neg hempty]
    dsimp only
    have hofull : out.data.length = ECHTTP_CLIENT_BUFFER := by omega
    have hqinv : QInv queue := hs3
    rcases echttp_raw_send_queue_spec a.length a queue (Nat.le_refl _) hqinv
      with ⟨hq1, hq2⟩
    refine ⟨?_, rfl, rfl, ⟨hs1, hs2, hq2, hs4⟩, Or.inr hofull⟩
    rw [RawTcpOut.buffered, RawTcpOut.buffered]
    dsimp only
    rw [hq1, List.append_assoc]

/-- One `echttp_raw_transmit` call that makes progress emits the next
bytes of the pending stream (inline buffer first, then queue, then file),
preserves the invariant, and — whenever buffered bytes remain — does not
touch the transfer at all. -/
theorem echttp_raw_transmit_step (st : RawTcpOut) (k : Nat)
    (st' : RawTcpOut) (sent : List Nat) (hinv : RawInv st)
    (h : echttp_raw_transmit st k = .progress st' sent) :
    sent ++ st'.pendingBytes = st.pendingBytes ∧ RawInv st'
    ∧ (st.buffered ≠ [] →
        st'.transferFile = st.transferFile
        ∧ st'.transferSize = st.transferSize
        ∧ sent ++ st'.buffered = st.buffered) := by
  obtain ⟨out, queue, tf, ts⟩ := st
  obtain ⟨hs1, hs2, hs3, hs4⟩ := hinv
  dsimp only at hs1 hs2 hs3 hs4
  rw [echttp_raw_transmit] at h
  dsimp only at h
  by_cases hp : out.pending.length > 0
  · rw [if_pos hp] at h
    by_cases hz : min k (min out.pending.length ETH_MAX_FRAME) = 0
    · rw [if_pos hz] at h
      injection h
    · rw [if_neg hz] at h
      injection h with h1 h2
      subst h1 h2
      have hnle : min k (min out.pending.length ETH_MAX_FRAME)
          ≤ out.pending.length := le_trans (Nat.min_le_right _ _)
        (Nat.min_le_left _ _)
      have hcp := echttp_raw_consume_pending out
        (min k (min out.pending.length ETH_MAX_FRAME)) hs1 hnle
      have hcinv : (echttp_raw_consume out
          (min k (min out.pending.length ETH_MAX_FRAME))).start
            ≤ (echttp_raw_consume out
              (min k (min out.pending.length ETH_MAX_FRAME))).data.length
          ∧ (echttp_raw_consume out
              (min k (min out.pending.length ETH_MAX_FRAME))).data.length
            ≤ ECHTTP_CLIENT_BUFFER := by
        rw [echttp_raw_consume]
        by_cases hr : out.start + min k (min out.pending.length ETH_MAX_FRAME)
            ≥ out.data.length
        · rw [if_pos hr]
          exact ⟨Nat.le_refl _, by simp [ECHTTP_CLIENT_BUFFER]⟩
        · rw [if_neg hr]
          exact ⟨by dsimp only; omega, hs2⟩
      refine ⟨?_, ⟨hcinv.1, hcinv.2, hs3, hs4⟩, fun _ => ⟨rfl, rfl, ?_⟩⟩
      · rw [RawTcpOut.pendingBytes, RawTcpOut.pendingBytes,
          RawTcpOut.buffered, RawTcpOut.buffered]
        dsimp only
        rw [hcp]
        simp only [List.append_assoc]
        rw [← List.append_assoc (out.pending.take _), List.take_append_drop]
        rfl
      · rw [RawTcpOut.buffered, RawTcpOut.buffered]
        dsimp only
        rw [hcp, ← List.append_assoc, List.take_append_drop]
  · rw [if_neg hp] at h
    have hout : out.pending = [] :=
      List.length_eq_zero.mp (by omega)
    cases queue with
    | cons b qrest =>
        dsimp only at h
        have hbinv := hs3 b (by simp)
        have hbp : b.pending.length > 0 := by
          rw [RawBuffer.pending, List.length_drop]
          omega
        rw [if_pos hbp] at h
        by_cases hz : min k (min b.pending.length ETH_MAX_FRAME) = 0
        · rw [if_pos hz] at h
          injection h
        · rw [if_neg hz] at h
          have hnle : min k (min b.pending.length ETH_MAX_FRAME)
              ≤ b.pending.length := le_trans (Nat.min_le_right _ _)
            (Nat.min_le_left _ _)
          have hcp := echttp_raw_consume_pending b
            (min k (min b.pending.length ETH_MAX_FRAME))
            (Nat.le_of_lt hbinv.1) hnle
          by_cases hbd : (echttp_raw_consume b
              (min k (min b.pending.length ETH_MAX_FRAME))).data.length = 0
          · rw [if_pos hbd] at h
            injection h with h1 h2
            subst h1 h2
            have hr : b.start + min k (min b.pending.length ETH_MAX_FRAME)
                ≥ b.data.length := by
              by_contra hcon
              rw [echttp_raw_consume, if_neg hcon] at hbd
              dsimp only at hbd
              omega
            have hall : min k (min b.pending.length ETH_MAX_FRAME)
                = b.pending.length := by
              rw [RawBuffer.pending, List.length_drop]
              rw [RawBuffer.pending, List.length_drop] at hnle
              omega
            have htake : b.pending.take
                (min k (min b.pending.length ETH_MAX_FRAME)) = b.pending := by
              rw [hall, List.take_length]
            refine ⟨?_, ⟨hs1, hs2, fun x hx => hs3 x (by simp [hx]), hs4⟩,
              fun _ => ⟨rfl, rfl, ?_⟩⟩
            · rw [RawTcpOut.pendingBytes, RawTcpOut.pendingBytes,
                RawTcpOut.buffered, RawTcpOut.buffered]
              dsimp only
              rw [htake, hout, queueFlat]
              simp only [List.nil_append, List.append_assoc]
              rfl
            · rw [RawTcpOut.buffered, RawTcpOut.buffered]
              dsimp only
              rw [htake, hout, queueFlat]
              simp
          · rw [if_neg hbd] at h
            injection h with h1 h2
            subst h1 h2
            have hnr : ¬ (b.start + min k (min b.pending.length ETH_MAX_FRAME)
                ≥ b.data.length) := by
              intro hge
              rw [echttp_raw_consume, if_pos hge] at hbd
              exact hbd rfl
            have hcq : echttp_raw_consume b
                (min k (min b.pending.length ETH_MAX_FRAME))
                = ⟨b.data, b.start + min k (min b.pending.length ETH_MAX_FRAME)⟩ := by
              rw [echttp_raw_consume, if_neg hnr]
            refine ⟨?_, ⟨hs1, hs2, ?_, hs4⟩, fun _ => ⟨rfl, rfl, ?_⟩⟩
            · rw [RawTcpOut.pendingBytes, RawTcpOut.pendingBytes,
                RawTcpOut.buffered, RawTcpOut.buffered]
              dsimp only
              rw [queueFlat, hcp, hout]
              rw [queueFlat]
              simp only [List.nil_append, List.append_assoc]
              rw [← List.append_assoc (b.pending.take _),
                List.take_append_drop]
              rfl
            · intro x hx
              rcases List.mem_cons.mp hx with hx | hx
              · subst hx
                rw [hcq]
                refine ⟨by dsimp only; omega, by dsimp only; exact hbinv.2⟩
              · exact hs3 x (by simp [hx])
            · rw [RawTcpOut.buffered, RawTcpOut.buffered]
              dsimp only
              rw [queueFlat, hcp, hout]
              rw [queueFlat]
              simp only [List.nil_append]
              rw [← List.append_assoc, List.take_append_drop]
    | nil =>
        dsimp only at h
        rw [echttp_raw_transmit_file] at h
        dsimp only at h
        have hbuf : (RawTcpOut.mk out [] tf ts).buffered = [] := by
          rw [RawTcpOut.buffered]
          dsimp only
          rw [hout, queueFlat]
          rfl
        by_cases hts : 0 < ts
        · rw [if_pos hts] at h
          by_cases hz : min k (min (min ts (ETH_MAX_FRAME : Int)).toNat
              tf.length) = 0
          · rw [if_pos hz] at h
            injection h
          · rw [if_neg hz] at h
            have hnts : min k (min (min ts (ETH_MAX_FRAME : Int)).toNat
                tf.length) ≤ ts.toNat := by
              have h1 : (min ts (ETH_MAX_FRAME : Int)).toNat ≤ ts.toNat := by
                omega
              have h2 := Nat.min_le_left
                ((min ts (ETH_MAX_FRAME : Int)).toNat) tf.length
              have h3 := Nat.min_le_right k
                (min ((min ts (ETH_MAX_FRAME : Int)).toNat) tf.length)
              omega
            have hntf : min k (min (min ts (ETH_MAX_FRAME : Int)).toNat
                tf.length) ≤ tf.length := by
              have h2 := Nat.min_le_right
                ((min ts (ETH_MAX_FRAME : Int)).toNat) tf.length
              have h3 := Nat.min_le_right k
                (min ((min ts (ETH_MAX_FRAME : Int)).toNat) tf.length)
              omega
            by_cases hdone : ts - (min k (min (min ts (ETH_MAX_FRAME : Int)).toNat
                tf.length) : Nat) ≤ 0
            · rw [if_pos hdone] at h
              injection h with h1 h2
              subst h1 h2
              have hall : (min k (min (min ts (ETH_MAX_FRAME : Int)).toNat
                  tf.length) : Nat) = ts.toNat := by omega
              refine ⟨?_, ⟨hs1, hs2, hs3, by dsimp only; omega⟩,
                fun hne => absurd hbuf hne⟩
              rw [RawTcpOut.pendingBytes, RawTcpOut.pendingBytes,
                RawTcpOut.filePending, RawTcpOut.filePending]
              dsimp only
              rw [RawTcpOut.buffered, RawTcpOut.buffered]
              dsimp only
              rw [hout, queueFlat, hall]
              simp
            · rw [if_neg hdone] at h
              injection h with h1 h2
              subst h1 h2
              have htn : ((ts - (min k (min (min ts (ETH_MAX_FRAME : Int)).toNat
                  tf.length) : Nat))).toNat
                  = ts.toNat - min k (min (min ts (ETH_MAX_FRAME : Int)).toNat
                      tf.length) := by omega
              refine ⟨?_, ⟨hs1, hs2, hs3, ?_⟩, fun hne => absurd hbuf hne⟩
              · rw [RawTcpOut.pendingBytes, RawTcpOut.pendingBytes,
                  RawTcpOut.filePending, RawTcpOut.filePending]
                dsimp only
                rw [RawTcpOut.buffered, RawTcpOut.buffered]
                dsimp only
                rw [hout, queueFlat, htn]
                simp only [List.nil_append]
                rw [← List.take_add]
                have : min k (min (min ts (ETH_MAX_FRAME : Int)).toNat
                    tf.length) + (ts.toNat - min k (min (min ts
                      (ETH_MAX_FRAME : Int)).toNat tf.length)) = ts.toNat := by
                  omega
                rw [this]
              · dsimp only
                rw [List.length_drop]
                omega
        · rw [if_neg hts] at h
          injection h with h1 h2
          subst h1 h2
          exact ⟨by rw [List.nil_append], ⟨hs1, hs2, hs3, hs4⟩,
            fun _ => ⟨rfl, rfl, by rw [List.nil_append]⟩⟩

/-- Draining emits a prefix of the pending stream: the wire trace plus
what is still pending is exactly what was pending initially. -/
theorem echttp_raw_drain_trace (ks : List Nat) :
    ∀ (st : RawTcpOut), RawInv st →
    (echttp_raw_drain st ks).2
        ++ (echttp_raw_drain st ks).1.pendingBytes = st.pendingBytes
    ∧ RawInv (echttp_raw_drain st ks).1 := by
  induction ks with
  | nil =>
      intro st hinv
      exact ⟨List.nil_append _, hinv⟩
  | cons k ks ih =>
      intro st hinv
      cases h : echttp_raw_transmit st k with
      | stop =>
          simp only [echttp_raw_drain, h]
          exact ⟨List.nil_append _, hinv⟩
      | progress st' sent =>
          rcases echttp_raw_transmit_step st k st' sent hinv h with ⟨h1, h2, _⟩
          rcases ih st' h2 with ⟨ih1, ih2⟩
          simp only [echttp_raw_drain, h]
          refine ⟨?_, ih2⟩
          rw [List.append_assoc, ih1, h1]

/-- C3 (confirmed): file-transfer bytes never go out while buffered
output remains — a transmit step taken with buffered bytes pending leaves
the transfer untouched and sends buffered bytes only — and for the
scenario send(a); send(b); transfer(f, |f|) on a fresh slot, every
transmit schedule emits a prefix of a ++ b ++ f, the full stream exactly
when nothing is left pending (HTTP preamble before file bytes, in strict
concatenation). -/
theorem C3_output_pipeline :
    (∀ (st : RawTcpOut) (k : Nat) (st' : RawTcpOut) (sent : List Nat),
      RawInv st → echttp_raw_transmit st k = .progress st' sent →
      st.buffered ≠ [] →
      st'.transferFile = st.transferFile
      ∧ st'.transferSize = st.transferSize
      ∧ sent ++ st'.buffered = st.buffered)
    ∧ (∀ (a b f ks : List Nat),
      (echttp_raw_drain (echttp_raw_transfer
          (echttp_raw_send (echttp_raw_send rawInit a) b)
          f (f.length : Int)) ks).2
        ++ (echttp_raw_drain (echttp_raw_transfer
          (echttp_raw_send (echttp_raw_send rawInit a) b)
          f (f.length : Int)) ks).1.pendingBytes = a ++ b ++ f
      ∧ ((echttp_raw_drain (echttp_raw_transfer
            (echttp_raw_send (echttp_raw_send rawInit a) b)
            f (f.length : Int)) ks).1.pendingBytes = [] →
         (echttp_raw_drain (echttp_raw_transfer
            (echttp_raw_send (echttp_raw_send rawInit a) b)
            f (f.length : Int)) ks).2 = a ++ b ++ f)) := by
  constructor
  · intro st k st' sent hinv h hne
    exact (echttp_raw_transmit_step st k st' sent hinv h).2.2 hne
  · intro a b f ks
    have hinit : RawInv rawInit := by
      refine ⟨Nat.le_refl 0, by decide, ?_, by decide⟩
      intro x hx
      cases hx
    have hsi : SendInv rawInit := Or.inl rfl
    rcases echttp_raw_send_spec rawInit a hinit hsi with ⟨a1, _, _, a4, a5⟩
    rcases echttp_raw_send_spec (echttp_raw_send rawInit a) b a4 a5
      with ⟨b1, _, _, b4, _⟩
    have h0 : rawInit.buffered = [] := rfl
    have hbuf2 : (echttp_raw_send (echttp_raw_send rawInit a) b).buffered
        = a ++ b := by
      rw [b1, a1, h0, List.nil_append]
    have hpb0 : (echttp_raw_transfer
        (echttp_raw_send (echttp_raw_send rawInit a) b)
        f (f.length : Int)).pendingBytes = a ++ b ++ f := by
      rw [RawTcpOut.pendingBytes,
        show (echttp_raw_transfer
          (echttp_raw_send (echttp_raw_send rawInit a) b)
          f (f.length : Int)).buffered
          = (echttp_raw_send (echttp_raw_send rawInit a) b).buffered from rfl,
        hbuf2,
        show (echttp_raw_transfer
          (echttp_raw_send (echttp_raw_send rawInit a) b)
          f (f.length : Int)).filePending
          = f.take ((f.length : Int)).toNat from rfl]
      rw [Int.toNat_natCast, List.take_length]
    have hinv0 : RawInv (echttp_raw_transfer
        (echttp_raw_send (echttp_raw_send rawInit a) b)
        f (f.length : Int)) := by
      obtain ⟨r1, r2, r3, _⟩ := b4
      refine ⟨r1, r2, r3, ?_⟩
      show ((f.length : Int)).toNat ≤ f.length
      rw [Int.toNat_natCast]
    rcases echttp_raw_drain_trace ks _ hinv0 with ⟨d1, _⟩
    refine ⟨d1.trans hpb0, ?_⟩
    intro hemp
    rw [hemp, List.append_nil] at d1
    exact d1.trans hpb0

/-- Witness for C3: a concrete transmit step with buffered bytes pending
leaves the transfer untouched, and the concrete scenario
send [1,2]; send [3]; transfer [9,8] emits 1 2 3 9 8 on the wire. -/
theorem C3_output_pipeline_witness :
    ((RawTcpOut.mk ⟨[], 0⟩ [] [9] 1).transferFile
        = (RawTcpOut.mk ⟨[7], 0⟩ [] [9] 1).transferFile
      ∧ (RawTcpOut.mk ⟨[], 0⟩ [] [9] 1).transferSize
        = (RawTcpOut.mk ⟨[7], 0⟩ [] [9] 1).transferSize
      ∧ [7] ++ (RawTcpOut.mk ⟨[], 0⟩ [] [9] 1).buffered
        = (RawTcpOut.mk ⟨[7], 0⟩ [] [9] 1).buffered)
    ∧ (echttp_raw_drain (echttp_raw_transfer
        (echttp_raw_send (echttp_raw_send rawInit [1, 2]) [3])
        [9, 8] (([9, 8] : List Nat).length : Int)) [3, 2]).2
      = [1, 2] ++ [3] ++ [9, 8] :=
  ⟨C3_output_pipeline.1 ⟨⟨[7], 0⟩, [], [9], 1⟩ 5 ⟨⟨[], 0⟩, [], [9], 1⟩ [7]
      ⟨by decide, by decide, by decide, by decide⟩ (by decide) (by decide),
   (C3_output_pipeline.2 [1, 2] [3] [9, 8] [3, 2]).2 (by decide)⟩

end Echttp
